import Mathlib

/-!
Shallow embedding of `src/schema.ts` of tosijs-schema: the schema data
model, the validation engine (`validate`/`walk`, including its prime-jump
sampling with `STRIDE = 97`) and the diff engine (`diff`).

Modelling conventions:
* JavaScript values are `JVal`.  `null` and `undefined` are merged into
  `JVal.null`: the validator treats them identically (`v === null ||
  v === undefined`) and no other reachable code distinguishes them.
* JavaScript numbers are modelled as rationals (`ℚ`); `Number.isInteger v`
  becomes `v.den = 1`, and the JS `%` operator becomes `jsMod` (remainder
  truncated towards zero, `none` standing for the `NaN` produced by `x % 0`).
* Objects are insertion-ordered association lists, matching `for ... in`
  iteration order for string keys.
* Regular-expression tests and the format-registry predicates are string
  predicates supplied by an `Oracles` record; the registry key set
  (`email`, `uuid`, `ipv4`, `uri`, `date-time`, `emoji`) is fixed as in the
  source.
* `JSON.stringify(a) === JSON.stringify(b)` on schema nodes is modelled by
  the structural comparison `schemaBeq` (schema records have a canonical
  field order here), and `===` on two `type` fields by `typeJsEq`
  (value equality on strings, reference inequality on distinct arrays).
-/

/-- A JavaScript value, as far as the validator can observe it. -/
inductive JVal where
  | null
  | bool (b : Bool)
  | num (q : ℚ)
  | str (sv : String)
  | arr (elems : List JVal)
  | obj (fields : List (String × JVal))

/-- The JS `typeof` operator restricted to the values above
(`typeof null = "object"`; arrays are `"object"` as well). -/
def jsTypeof : JVal → String
  | .null => "object"
  | .bool _ => "boolean"
  | .num _ => "number"
  | .str _ => "string"
  | .arr _ => "object"
  | .obj _ => "object"

mutual

/-- Structural equality of JS values: models `===` on primitives and
`JSON.stringify` equality on containers. -/
def JVal.beq : JVal → JVal → Bool
  | .null, .null => true
  | .bool a, .bool b => a == b
  | .num a, .num b => a == b
  | .str a, .str b => a == b
  | .arr a, .arr b => JVal.beqList a b
  | .obj a, .obj b => JVal.beqFields a b
  | _, _ => false

def JVal.beqList : List JVal → List JVal → Bool
  | [], [] => true
  | x :: xs, y :: ys => JVal.beq x y && JVal.beqList xs ys
  | _, _ => false

def JVal.beqFields : List (String × JVal) → List (String × JVal) → Bool
  | [], [] => true
  | (k1, v1) :: xs, (k2, v2) :: ys => k1 == k2 && JVal.beq v1 v2 && JVal.beqFields xs ys
  | _, _ => false

end

mutual

theorem JVal.beq_refl : (v : JVal) → JVal.beq v v = true
  | .null => rfl
  | .bool b => by simp [JVal.beq]
  | .num q => by simp [JVal.beq]
  | .str a => by simp [JVal.beq]
  | .arr xs => by simpa [JVal.beq] using JVal.beqList_refl xs
  | .obj kvs => by simpa [JVal.beq] using JVal.beqFields_refl kvs

theorem JVal.beqList_refl : (l : List JVal) → JVal.beqList l l = true
  | [] => rfl
  | x :: xs => by simp [JVal.beqList, JVal.beq_refl x, JVal.beqList_refl xs]

theorem JVal.beqFields_refl : (l : List (String × JVal)) → JVal.beqFields l l = true
  | [] => rfl
  | (k, v) :: xs => by simp [JVal.beqFields, JVal.beq_refl v, JVal.beqFields_refl xs]

end

/-- A schema node.  Every key the engines read is a field; `none` models an
absent key.  `type` is either a plain string or an array of strings,
`items` a single node (homogeneous array) or a list (tuple), and
`additionalProperties` is `none` when the key is absent or `false`
(both are falsy in the source's `if (s.additionalProperties)`). -/
inductive Schema where
  | mk
    (type : Option (String ⊕ List String))
    (anyOf : Option (List Schema))
    (enum : Option (List JVal))
    (minimum : Option ℚ)
    (maximum : Option ℚ)
    (multipleOf : Option ℚ)
    (minLength : Option ℚ)
    (maxLength : Option ℚ)
    (pattern : Option String)
    (format : Option String)
    (minItems : Option ℚ)
    (maxItems : Option ℚ)
    (items : Option (Schema ⊕ List Schema))
    (properties : Option (List (String × Schema)))
    (required : Option (List String))
    (additionalProperties : Option Schema)
    (minProperties : Option ℚ)
    (maxProperties : Option ℚ)
    (title : Option String)
    (description : Option String)
    (default : Option JVal)

def Schema.type : Schema → Option (String ⊕ List String)
  | .mk t _ _ _ _ _ _ _ _ _ _ _ _ _ _ _ _ _ _ _ _ => t

def Schema.anyOf : Schema → Option (List Schema)
  | .mk _ a _ _ _ _ _ _ _ _ _ _ _ _ _ _ _ _ _ _ _ => a

def Schema.enum : Schema → Option (List JVal)
  | .mk _ _ e _ _ _ _ _ _ _ _ _ _ _ _ _ _ _ _ _ _ => e

def Schema.minimum : Schema → Option ℚ
  | .mk _ _ _ x _ _ _ _ _ _ _ _ _ _ _ _ _ _ _ _ _ => x

def Schema.maximum : Schema → Option ℚ
  | .mk _ _ _ _ x _ _ _ _ _ _ _ _ _ _ _ _ _ _ _ _ => x

def Schema.multipleOf : Schema → Option ℚ
  | .mk _ _ _ _ _ x _ _ _ _ _ _ _ _ _ _ _ _ _ _ _ => x

def Schema.minLength : Schema → Option ℚ
  | .mk _ _ _ _ _ _ x _ _ _ _ _ _ _ _ _ _ _ _ _ _ => x

def Schema.maxLength : Schema → Option ℚ
  | .mk _ _ _ _ _ _ _ x _ _ _ _ _ _ _ _ _ _ _ _ _ => x

def Schema.pattern : Schema → Option String
  | .mk _ _ _ _ _ _ _ _ x _ _ _ _ _ _ _ _ _ _ _ _ => x

def Schema.format : Schema → Option String
  | .mk _ _ _ _ _ _ _ _ _ x _ _ _ _ _ _ _ _ _ _ _ => x

def Schema.minItems : Schema → Option ℚ
  | .mk _ _ _ _ _ _ _ _ _ _ x _ _ _ _ _ _ _ _ _ _ => x

def Schema.maxItems : Schema → Option ℚ
  | .mk _ _ _ _ _ _ _ _ _ _ _ x _ _ _ _ _ _ _ _ _ => x

def Schema.items : Schema → Option (Schema ⊕ List Schema)
  | .mk _ _ _ _ _ _ _ _ _ _ _ _ x _ _ _ _ _ _ _ _ => x

def Schema.properties : Schema → Option (List (String × Schema))
  | .mk _ _ _ _ _ _ _ _ _ _ _ _ _ x _ _ _ _ _ _ _ => x

def Schema.required : Schema → Option (List String)
  | .mk _ _ _ _ _ _ _ _ _ _ _ _ _ _ x _ _ _ _ _ _ => x

def Schema.additionalProperties : Schema → Option Schema
  | .mk _ _ _ _ _ _ _ _ _ _ _ _ _ _ _ x _ _ _ _ _ => x

def Schema.minProperties : Schema → Option ℚ
  | .mk _ _ _ _ _ _ _ _ _ _ _ _ _ _ _ _ x _ _ _ _ => x

def Schema.maxProperties : Schema → Option ℚ
  | .mk _ _ _ _ _ _ _ _ _ _ _ _ _ _ _ _ _ x _ _ _ => x

def Schema.title : Schema → Option String
  | .mk _ _ _ _ _ _ _ _ _ _ _ _ _ _ _ _ _ _ x _ _ => x

def Schema.description : Schema → Option String
  | .mk _ _ _ _ _ _ _ _ _ _ _ _ _ _ _ _ _ _ _ x _ => x

def Schema.default : Schema → Option JVal
  | .mk _ _ _ _ _ _ _ _ _ _ _ _ _ _ _ _ _ _ _ _ x => x

/-! ## Schema size

`ssize` is a computable node count of a schema tree, used as recursion
fuel for the engines: every recursive descent of `walk` and `diff` moves
to a strict subterm of the schema, so `ssize s` steps always suffice. -/

mutual

def ssize : Schema → ℕ
  | .mk _ anyOf _ _ _ _ _ _ _ _ _ _ items props _ addl _ _ _ _ _ =>
    1 +
    (match anyOf with | some l => ssizeL l | none => 0) +
    (match items with
     | some (.inl s) => ssize s
     | some (.inr l) => ssizeL l
     | none => 0) +
    (match props with | some ps => ssizeP ps | none => 0) +
    (match addl with | some s => ssize s | none => 0)

def ssizeL : List Schema → ℕ
  | [] => 0
  | s :: rest => ssize s + ssizeL rest

def ssizeP : List (String × Schema) → ℕ
  | [] => 0
  | (_, s) :: rest => ssize s + ssizeP rest

end

/-- `Option`-lifted comparison: `undefined === undefined` holds, an absent
key never equals a present one. -/
def optBeq (f : α → α → Bool) : Option α → Option α → Bool
  | none, none => true
  | some a, some b => f a b
  | _, _ => false

def qOptBeq : Option ℚ → Option ℚ → Bool := optBeq (fun a b => a == b)

def strOptBeq : Option String → Option String → Bool := optBeq (fun a b => a == b)

def strListBeq : List String → List String → Bool
  | [], [] => true
  | x :: xs, y :: ys => x == y && strListBeq xs ys
  | _, _ => false

/-- Structural comparison of a `type` field (string or string array). -/
def typeFieldBeq : (String ⊕ List String) → (String ⊕ List String) → Bool
  | .inl a, .inl b => a == b
  | .inr a, .inr b => strListBeq a b
  | _, _ => false


theorem optBeq_refl {f : α → α → Bool} (hf : ∀ a, f a a = true) :
    ∀ o : Option α, optBeq f o o = true
  | none => rfl
  | some a => hf a

theorem qOptBeq_refl (o : Option ℚ) : qOptBeq o o = true :=
  optBeq_refl (fun a => by simp) o

theorem strOptBeq_refl (o : Option String) : strOptBeq o o = true :=
  optBeq_refl (fun a => by simp) o

theorem strListBeq_refl : ∀ l : List String, strListBeq l l = true
  | [] => rfl
  | x :: xs => by simp [strListBeq, strListBeq_refl xs]

theorem typeFieldBeq_refl : ∀ t : String ⊕ List String, typeFieldBeq t t = true
  | .inl a => by simp [typeFieldBeq]
  | .inr l => by simp [typeFieldBeq, strListBeq_refl l]


/-! ## The validation engine

`walk` from the source is modelled as `walkF`, structurally recursive on a
fuel argument; the wrapper `validate` supplies `ssize s` fuel, which is
always sufficient because every recursive descent of the source moves to a
strict subterm of the schema (`walkF_irrel` below makes this precise).
`walkStep` is the loop body, a literal transcription of `walk`; the
recursive descents are its function arguments: `wFresh` models the fresh
top-level `validate(v, sub)` calls of the union branch (no `fullScan`, no
callback — an error from a member attempt is discarded, only `isNone` is
observed), `w` the ordinary recursive `walk(v[k], ...)` calls.

A result of `none` models `walk` returning `true`; `some (segs, msg)`
models the single `err(msg)` call made at path `segs` (relative to the
current node) just before `false` propagates to the top. -/

/-- Sampling stride of the validator (`const STRIDE = 97`). -/
def STRIDE : ℕ := 97

/-- The format-registry key set (`FMT` in the source). -/
def fmtNames : List String := ["email", "uuid", "ipv4", "uri", "date-time", "emoji"]

/-- Oracles for the host-language primitives the validator calls:
`rxTest p u v` models `new RegExp(p, u ? "u" : "").test(v)` and
`fmtTest f v` models `FMT[f](v)`. -/
structure Oracles where
  rxTest : String → Bool → String → Bool
  fmtTest : String → String → Bool

/-- A detected violation: path segments from the current node down to the
failure, plus the message passed to `err`. -/
abbrev VErr := List String × String

/-- Prefix one traversal segment onto an error's path (the source's
`path.push(k)` around a recursive descent). -/
def seg (k : String) : Option VErr → Option VErr
  | none => none
  | some e => some (k :: e.1, e.2)

/-- First failure of a sequence of checks, in order (fail-fast). -/
def firstErr (rs : List (Option VErr)) : Option VErr := rs.findSome? id

/-- `k in v` for an object value. -/
def jHas (kvs : List (String × JVal)) (k : String) : Bool := kvs.any (fun kv => kv.1 == k)

/-- `v[k]` for an object value (`JVal.null` doubles as `undefined`). -/
def jGet (kvs : List (String × JVal)) (k : String) : JVal :=
  match kvs.find? (fun kv => kv.1 == k) with
  | some kv => kv.2
  | none => .null

/-- `s.properties && k in s.properties`. -/
def propsHas (props : Option (List (String × Schema))) (k : String) : Bool :=
  match props with
  | some ps => ps.any (fun kp => kp.1 == k)
  | none => false

/-- Effective base type: `Array.isArray(s.type) ? s.type[0] : s.type`
(`none` models `undefined`, also for `[][0]`). -/
def typeFirst : Option (String ⊕ List String) → Option String
  | some (.inl t) => some t
  | some (.inr ts) => ts.head?
  | none => none

/-- `Array.isArray(s.type) && s.type.includes("null")`. -/
def typeHasNull : Option (String ⊕ List String) → Bool
  | some (.inr ts) => ts.contains "null"
  | _ => false

/-- Truncation towards zero, as JS number-to-integer conversion in `%`. -/
def jsTrunc (q : ℚ) : ℤ := if 0 ≤ q then ⌊q⌋ else ⌈q⌉

/-- The JS `%` operator on numbers; `none` models the `NaN` result of
`x % 0` (which compares unequal to `0`, so the `multipleOf` check fails). -/
def jsMod (a b : ℚ) : Option ℚ := if b = 0 then none else some (a - b * (jsTrunc (a / b) : ℚ))

/-- Index sequence of the homogeneous-array sampling loop
(`for (let i = 0; i < len; i += step)` with the forced-tail `idx`
computation and the `idx === len - 1` break).  The fuel argument is a
termination device only: the loop runs at most `len` iterations because
`step ≥ 1` whenever the validator calls it. -/
def sampleGo (len step : ℕ) : ℕ → ℕ → List ℕ
  | 0, _ => []
  | fuel + 1, i =>
    if i < len then
      let idx := if 1 < step ∧ len - 1 - step < i then len - 1 else i
      if idx = len - 1 then [idx] else idx :: sampleGo len step fuel (i + step)
    else []

/-- Dictionary sampling: keep the extra keys whose 1-based visit counter is
divisible by `STRIDE` (`i++; if (i % STRIDE !== 0) continue;`). -/
def strideSelect (l : List (String × JVal)) : List (String × JVal) :=
  (l.enum.filter (fun p => (p.1 + 1) % STRIDE == 0)).map Prod.snd

/-- `if (s.enum && !s.enum.includes(v)) return err("Enum mismatch")`. -/
def enumCheck (en : Option (List JVal)) (v : JVal) : Option VErr :=
  match en with
  | some es => if es.any (fun e => JVal.beq e v) then none else some ([], "Enum mismatch")
  | none => none

/-- The base-type screening block (`integer` / `array` / `object` /
`t && typeof v !== t`). -/
def typeKindCheck (t : Option String) (v : JVal) : Option VErr :=
  match t with
  | some "integer" =>
    (match v with
     | .num q => if q.den = 1 then none else some ([], "Expected integer")
     | _ => some ([], "Expected integer"))
  | some "array" =>
    (match v with
     | .arr _ => none
     | _ => some ([], "Expected array"))
  | some "object" =>
    (match v with
     | .obj _ => none
     | _ => some ([], "Expected object"))
  | some tv =>
    if tv = "" then none
    else if jsTypeof v = tv then none
    else some ([], "Expected " ++ tv)
  | none => none

/-- Numeric constraints (`minimum`/`maximum`/`multipleOf`), applied when
the value is a number. -/
def numCheck (mn mx mo : Option ℚ) (v : JVal) : Option VErr :=
  match v with
  | .num q =>
    (match mn with
     | some m => if q < m then some ([], "Value < min") else none
     | none => none) <|>
    (match mx with
     | some m => if m < q then some ([], "Value > max") else none
     | none => none) <|>
    (match mo with
     | some m => if jsMod q m ≠ some 0 then some ([], "Value not step") else none
     | none => none)
  | _ => none

/-- String constraints (`minLength`/`maxLength`/`pattern`/`format`),
applied when the value is a string. -/
def strCheck (O : Oracles) (mnl mxl : Option ℚ) (pat fmt : Option String) (v : JVal) :
    Option VErr :=
  match v with
  | .str sv =>
    (match mnl with
     | some m => if (sv.length : ℚ) < m then some ([], "Len < min") else none
     | none => none) <|>
    (match mxl with
     | some m => if m < (sv.length : ℚ) then some ([], "Len > max") else none
     | none => none) <|>
    (match pat with
     | some p =>
       if p = "" then none
       else if O.rxTest p (fmt == some "emoji") sv then none
       else some ([], "Pattern mismatch")
     | none => none) <|>
    (match fmt with
     | some f =>
       if f = "" then none
       else if fmtNames.contains f then
         (if O.fmtTest f sv then none else some ([], "Format invalid"))
       else none
     | none => none)
  | _ => none

/-- `required`: every listed key must be present. -/
def requiredCheck (rq : Option (List String)) (kvs : List (String × JVal)) : Option VErr :=
  match rq with
  | some ks => firstErr (ks.map (fun k => if jHas kvs k then none else some ([], "Missing " ++ k)))
  | none => none

/-- The object body of `walk` (reached when the effective type is
`object`; the value is an object by then, the type screen having failed
otherwise). -/
def objStep (w : JVal → Schema → Option VErr) (fs : Bool) (s : Schema)
    (kvs : List (String × JVal)) : Option VErr :=
  (match s.minProperties with
   | some mp => if (kvs.length : ℚ) < mp then some ([], "Too few props") else none
   | none => none) <|>
  requiredCheck s.required kvs <|>
  (match s.properties with
   | some ps =>
     firstErr (ps.map (fun kp =>
       if jHas kvs kp.1 then seg kp.1 (w (jGet kvs kp.1) kp.2) else none))
   | none => none) <|>
  (match s.additionalProperties with
   | some A =>
     firstErr ((if fs then kvs.filter (fun kv => !(propsHas s.properties kv.1))
       else strideSelect (kvs.filter (fun kv => !(propsHas s.properties kv.1)))).map
       (fun kv => seg kv.1 (w kv.2 A)))
   | none => none)

/-- `const step = fullScan || len <= STRIDE ? 1 : Math.floor(len / STRIDE)`. -/
def stepOf (fs : Bool) (len : ℕ) : ℕ := if fs || len ≤ STRIDE then 1 else len / STRIDE

/-- The array body of `walk` (`if (t === "array" && s.items)`): note that
the whole block, `minItems`/`maxItems` checks included, is guarded by
`s.items` being present. -/
def arrStep (w : JVal → Schema → Option VErr) (fs : Bool) (s : Schema)
    (vs : List JVal) : Option VErr :=
  match s.items with
  | none => none
  | some it =>
    (match s.minItems with
     | some m => if (vs.length : ℚ) < m then some ([], "Array too short") else none
     | none => none) <|>
    (match s.maxItems with
     | some m => if m < (vs.length : ℚ) then some ([], "Array too long") else none
     | none => none) <|>
    (match it with
     | .inr ts => firstErr (ts.enum.map (fun p => seg (toString p.1) (w (vs.getD p.1 .null) p.2)))
     | .inl A =>
       firstErr ((sampleGo vs.length (stepOf fs vs.length) vs.length 0).map
         (fun idx => seg (toString idx) (w (vs.getD idx .null) A))))

/-- One level of `walk`: union branch, null/undefined branch, enum and
type screening, numeric and string constraints, then the object or array
body.  `wFresh` and `w` stand for the recursive calls. -/
def walkStep (O : Oracles) (wFresh w : JVal → Schema → Option VErr) (fs : Bool)
    (v : JVal) (s : Schema) : Option VErr :=
  match s.anyOf with
  | some subs =>
    if subs.any (fun sub => (wFresh v sub).isNone) then none else some ([], "Union mismatch")
  | none =>
    match v with
    | .null => if typeHasNull s.type then none else some ([], "Expected value")
    | _ =>
      enumCheck s.enum v <|>
      typeKindCheck (typeFirst s.type) v <|>
      numCheck s.minimum s.maximum s.multipleOf v <|>
      strCheck O s.minLength s.maxLength s.pattern s.format v <|>
      (if typeFirst s.type = some "object" then
        (match v with
         | .obj kvs => objStep w fs s kvs
         | _ => none)
      else if typeFirst s.type = some "array" then
        (match v with
         | .arr vs => arrStep w fs s vs
         | _ => none)
      else none)

/-- Fuelled `walk`.  Fuel only ever runs out below `sizeOf s`, which the
wrapper never allows. -/
def walkF : ℕ → Oracles → Bool → JVal → Schema → Option VErr
  | 0, _, _, _, _ => none
  | n + 1, O, fs, v, s =>
    walkStep O (fun v2 s2 => walkF n O false v2 s2) (fun v2 s2 => walkF n O fs v2 s2) fs v s

/-- `validate(val, schema, opts)`: `true` iff no violation is found. -/
def validate (O : Oracles) (v : JVal) (s : Schema) (fs : Bool) : Bool :=
  (walkF (ssize s) O fs v s).isNone

/-- `path.join(".") || "root"`. -/
def renderPath (segs : List String) : String :=
  let j := String.intercalate "." segs
  if j = "" then "root" else j

/-- The invocations of a supplied `onError` callback during one
`validate` call: the source's `err` fires exactly when the first violation
is found, with the dot-joined path. -/
def callbackCalls (O : Oracles) (v : JVal) (s : Schema) (fs : Bool) : List (String × String) :=
  match walkF (ssize s) O fs v s with
  | some e => [(renderPath e.1, e.2)]
  | none => []

/-- The all-absent schema node: `{}` in the source, the "any" schema. -/
def emptySchema : Schema :=
  .mk none none none none none none none none none none none none none none none none
    none none none none none

/-- An oracle whose regex and format predicates always succeed. -/
def oracleTrue : Oracles := ⟨fun _ _ _ => true, fun _ _ => true⟩

/-! ## Fuel adequacy

`ssize` strictly decreases along every recursive descent of `walk`, so the
fuelled `walkF` never runs out of fuel when started with `ssize s`; the
clean recursion equation `walkE_eq` below is the form the proofs use. -/

theorem ssizeL_le_of_mem {x : Schema} : ∀ {l : List Schema}, x ∈ l → ssize x ≤ ssizeL l
  | s :: rest, h => by
    rcases List.mem_cons.mp h with h1 | h2
    · subst h1; simp only [ssizeL]; omega
    · have := ssizeL_le_of_mem h2
      simp only [ssizeL]; omega

theorem ssizeP_le_of_mem {kp : String × Schema} :
    ∀ {l : List (String × Schema)}, kp ∈ l → ssize kp.2 ≤ ssizeP l
  | (k, s) :: rest, h => by
    rcases List.mem_cons.mp h with h1 | h2
    · subst h1; simp only [ssizeP]; omega
    · have := ssizeP_le_of_mem h2
      simp only [ssizeP]; omega

set_option maxHeartbeats 1600000 in
theorem ssize_pos (s : Schema) : 1 ≤ ssize s := by
  cases s
  conv_rhs => rw [ssize.eq_def]
  dsimp only
  omega

theorem ssize_anyOf_lt {s : Schema} {l : List Schema} {sub : Schema}
    (hl : s.anyOf = some l) (hm : sub ∈ l) : ssize sub < ssize s := by
  cases s
  simp only [Schema.anyOf] at hl
  subst hl
  conv_rhs => rw [ssize.eq_def]
  dsimp only
  have := ssizeL_le_of_mem hm
  omega

theorem ssize_items_single_lt {s : Schema} {A : Schema}
    (hl : s.items = some (.inl A)) : ssize A < ssize s := by
  cases s
  simp only [Schema.items] at hl
  subst hl
  conv_rhs => rw [ssize.eq_def]
  dsimp only
  omega

theorem ssize_items_tuple_lt {s : Schema} {ts : List Schema} {x : Schema}
    (hl : s.items = some (.inr ts)) (hm : x ∈ ts) : ssize x < ssize s := by
  cases s
  simp only [Schema.items] at hl
  subst hl
  conv_rhs => rw [ssize.eq_def]
  dsimp only
  have := ssizeL_le_of_mem hm
  omega

theorem ssize_props_lt {s : Schema} {ps : List (String × Schema)} {kp : String × Schema}
    (hl : s.properties = some ps) (hm : kp ∈ ps) : ssize kp.2 < ssize s := by
  cases s
  simp only [Schema.properties] at hl
  subst hl
  conv_rhs => rw [ssize.eq_def]
  dsimp only
  have := ssizeP_le_of_mem hm
  omega

theorem ssize_addl_lt {s : Schema} {A : Schema}
    (hl : s.additionalProperties = some A) : ssize A < ssize s := by
  cases s
  simp only [Schema.additionalProperties] at hl
  subst hl
  conv_rhs => rw [ssize.eq_def]
  dsimp only
  omega

theorem listAllCongr {l : List α} {f g : α → Bool} (h : ∀ x ∈ l, f x = g x) :
    l.all f = l.all g := by
  induction l with
  | nil => rfl
  | cons x xs ih =>
    simp only [List.all_cons]
    rw [h x (List.mem_cons_self x xs), ih (fun y hy => h y (List.mem_cons_of_mem x hy))]

theorem listAnyCongr {l : List α} {f g : α → Bool} (h : ∀ x ∈ l, f x = g x) :
    l.any f = l.any g := by
  induction l with
  | nil => rfl
  | cons x xs ih =>
    simp only [List.any_cons]
    rw [h x (List.mem_cons_self x xs), ih (fun y hy => h y (List.mem_cons_of_mem x hy))]

theorem listMapCongr {l : List α} {f g : α → β} (h : ∀ x ∈ l, f x = g x) :
    l.map f = l.map g := by
  induction l with
  | nil => rfl
  | cons x xs ih =>
    simp only [List.map_cons]
    rw [h x (List.mem_cons_self x xs), ih (fun y hy => h y (List.mem_cons_of_mem x hy))]

theorem objStep_congr {w1 w2 : JVal → Schema → Option VErr} {fs : Bool} {s : Schema}
    {kvs : List (String × JVal)}
    (hw : ∀ v2 s2, ssize s2 < ssize s → w1 v2 s2 = w2 v2 s2) :
    objStep w1 fs s kvs = objStep w2 fs s kvs := by
  unfold objStep
  cases hp : s.properties with
  | none =>
    cases hap : s.additionalProperties with
    | none => rfl
    | some A =>
      have hmap : ∀ kv : String × JVal, seg kv.1 (w1 kv.2 A) = seg kv.1 (w2 kv.2 A) := by
        intro kv
        rw [hw kv.2 A (ssize_addl_lt hap)]
      dsimp only
      rw [listMapCongr (fun kv _ => hmap kv)]
  | some ps =>
    have hmap1 : ∀ kp ∈ ps,
        (if jHas kvs kp.1 then seg kp.1 (w1 (jGet kvs kp.1) kp.2) else none) =
        (if jHas kvs kp.1 then seg kp.1 (w2 (jGet kvs kp.1) kp.2) else none) := by
      intro kp hkp
      rw [hw (jGet kvs kp.1) kp.2 (ssize_props_lt hp hkp)]
    cases hap : s.additionalProperties with
    | none =>
      dsimp only
      rw [listMapCongr hmap1]
    | some A =>
      have hmap : ∀ kv : String × JVal, seg kv.1 (w1 kv.2 A) = seg kv.1 (w2 kv.2 A) := by
        intro kv
        rw [hw kv.2 A (ssize_addl_lt hap)]
      dsimp only
      rw [listMapCongr hmap1, listMapCongr (fun kv _ => hmap kv)]

theorem arrStep_congr {w1 w2 : JVal → Schema → Option VErr} {fs : Bool} {s : Schema}
    {vs : List JVal}
    (hw : ∀ v2 s2, ssize s2 < ssize s → w1 v2 s2 = w2 v2 s2) :
    arrStep w1 fs s vs = arrStep w2 fs s vs := by
  unfold arrStep
  cases hit : s.items with
  | none => rfl
  | some it =>
    cases it with
    | inl A =>
      have hmap : ∀ idx : ℕ,
          seg (toString idx) (w1 (vs.getD idx .null) A) =
          seg (toString idx) (w2 (vs.getD idx .null) A) := by
        intro idx
        rw [hw (vs.getD idx .null) A (ssize_items_single_lt hit)]
      dsimp only
      rw [listMapCongr (fun idx _ => hmap idx)]
    | inr ts =>
      have hmap : ∀ p ∈ ts.enum,
          seg (toString p.1) (w1 (vs.getD p.1 .null) p.2) =
          seg (toString p.1) (w2 (vs.getD p.1 .null) p.2) := by
        intro p hp
        have hmem : p.2 ∈ ts := by
          rw [← List.enum_map_snd ts]
          exact List.mem_map_of_mem Prod.snd hp
        rw [hw (vs.getD p.1 .null) p.2 (ssize_items_tuple_lt hit hmem)]
      dsimp only
      rw [listMapCongr hmap]

theorem walkStep_congr {O : Oracles} {fs : Bool} {v : JVal} {s : Schema}
    {wf1 wf2 w1 w2 : JVal → Schema → Option VErr}
    (hf : ∀ v2 s2, ssize s2 < ssize s → wf1 v2 s2 = wf2 v2 s2)
    (hw : ∀ v2 s2, ssize s2 < ssize s → w1 v2 s2 = w2 v2 s2) :
    walkStep O wf1 w1 fs v s = walkStep O wf2 w2 fs v s := by
  unfold walkStep
  cases ha : s.anyOf with
  | some subs =>
    have hany : ∀ sub ∈ subs, (wf1 v sub).isNone = (wf2 v sub).isNone := by
      intro sub hsub
      rw [hf v sub (ssize_anyOf_lt ha hsub)]
    dsimp only
    rw [listAnyCongr hany]
  | none =>
    have hobj : ∀ kvs, objStep w1 fs s kvs = objStep w2 fs s kvs :=
      fun kvs => objStep_congr hw
    have harr : ∀ vs, arrStep w1 fs s vs = arrStep w2 fs s vs :=
      fun vs => arrStep_congr hw
    cases v <;> first | rfl | simp only [hobj, harr]

theorem walkF_irrel : ∀ n : ℕ, ∀ (m : ℕ) (O : Oracles) (fs : Bool) (v : JVal) (s : Schema),
    ssize s ≤ n → ssize s ≤ m → walkF n O fs v s = walkF m O fs v s := by
  intro n
  induction n using Nat.strong_induction_on with
  | _ n IH =>
    intro m O fs v s hn hm
    have h1 : 1 ≤ ssize s := ssize_pos s
    obtain ⟨n1, rfl⟩ : ∃ n1, n = n1 + 1 := ⟨n - 1, by omega⟩
    obtain ⟨m1, rfl⟩ : ∃ m1, m = m1 + 1 := ⟨m - 1, by omega⟩
    simp only [walkF]
    apply walkStep_congr
    · intro v2 s2 hs2
      exact IH n1 (by omega) m1 O false v2 s2 (by omega) (by omega)
    · intro v2 s2 hs2
      exact IH n1 (by omega) m1 O fs v2 s2 (by omega) (by omega)

/-- `walk` with its canonical fuel; `validate O v s fs = (walkE O fs v s).isNone`. -/
def walkE (O : Oracles) (fs : Bool) (v : JVal) (s : Schema) : Option VErr :=
  walkF (ssize s) O fs v s

/-- The recursion equation of `walk`: one `walkStep` whose descents are
again `walkE` (fresh, `fullScan = false` descents for union members). -/
theorem walkE_eq (O : Oracles) (fs : Bool) (v : JVal) (s : Schema) :
    walkE O fs v s =
    walkStep O (fun v2 s2 => walkE O false v2 s2) (fun v2 s2 => walkE O fs v2 s2) fs v s := by
  unfold walkE
  have h1 : 1 ≤ ssize s := ssize_pos s
  obtain ⟨n1, hn⟩ : ∃ n1, ssize s = n1 + 1 := ⟨ssize s - 1, by omega⟩
  rw [hn]
  simp only [walkF]
  apply walkStep_congr
  · intro v2 s2 hs2
    exact walkF_irrel n1 (ssize s2) O false v2 s2 (by omega) (by omega)
  · intro v2 s2 hs2
    exact walkF_irrel n1 (ssize s2) O fs v2 s2 (by omega) (by omega)

theorem validate_eq_walkE (O : Oracles) (v : JVal) (s : Schema) (fs : Bool) :
    validate O v s fs = (walkE O fs v s).isNone := rfl

theorem callbackCalls_eq_walkE (O : Oracles) (v : JVal) (s : Schema) (fs : Bool) :
    callbackCalls O v s fs =
    (match walkE O fs v s with
     | some e => [(renderPath e.1, e.2)]
     | none => []) := rfl

/-! ## Small combinator facts -/

theorem seg_isNone (k : String) (r : Option VErr) : (seg k r).isNone = r.isNone := by
  cases r <;> rfl

theorem orElse_isNone (a b : Option VErr) : (a <|> b).isNone = (a.isNone && b.isNone) := by
  cases a <;> simp

theorem orElse_none_left {a b : Option VErr} (h : a = none) : (a <|> b) = b := by
  subst h; rfl

theorem orElse_some_left {a b : Option VErr} {e : VErr} (h : a = some e) :
    (a <|> b) = some e := by
  subst h; rfl

theorem firstErr_isNone (rs : List (Option VErr)) :
    (firstErr rs).isNone = rs.all (fun r => r.isNone) := by
  induction rs with
  | nil => rfl
  | cons r rest ih =>
    cases r with
    | none => simpa [firstErr, List.findSome?] using ih
    | some e => simp [firstErr, List.findSome?]

theorem firstErr_cons_none {r : Option VErr} {rs : List (Option VErr)} (h : r = none) :
    firstErr (r :: rs) = firstErr rs := by
  subst h; simp [firstErr, List.findSome?]

theorem firstErr_cons_some {r : Option VErr} {rs : List (Option VErr)} {e : VErr}
    (h : r = some e) : firstErr (r :: rs) = some e := by
  subst h; simp [firstErr, List.findSome?]

theorem firstErr_map_isNone (l : List α) (f : α → Option VErr) :
    (firstErr (l.map f)).isNone = l.all (fun x => (f x).isNone) := by
  induction l with
  | nil => rfl
  | cons x xs ih =>
    cases hx : f x with
    | none =>
      simp only [List.map_cons, List.all_cons]
      rw [firstErr_cons_none hx, ih, hx]
      rfl
    | some e =>
      simp only [List.map_cons, List.all_cons]
      rw [firstErr_cons_some hx, hx]
      rfl

/-! ## Branch-evaluation facts for `walkStep` -/

theorem enumCheck_none (v : JVal) : enumCheck none v = none := rfl

theorem typeKindCheck_array_arr (vs : List JVal) :
    typeKindCheck (some "array") (.arr vs) = none := rfl

theorem typeKindCheck_object_obj (kvs : List (String × JVal)) :
    typeKindCheck (some "object") (.obj kvs) = none := rfl

theorem numCheck_not_num (mn mx mo : Option ℚ) (v : JVal) (h : ∀ q, v ≠ .num q) :
    numCheck mn mx mo v = none := by
  cases v <;> first | rfl | exact absurd rfl (h _)

theorem strCheck_not_str (O : Oracles) (mnl mxl : Option ℚ) (pat fmt : Option String)
    (v : JVal) (h : ∀ a, v ≠ .str a) : strCheck O mnl mxl pat fmt v = none := by
  cases v <;> first | rfl | exact absurd rfl (h _)

/-- `walk` on a homogeneous-array schema node: the whole call reduces to
the sampled scan of the `items` schema. -/
theorem walkE_homog {O : Oracles} {fs : Bool} {s A : Schema} {vs : List JVal}
    (ha : s.anyOf = none) (he : s.enum = none) (ht : s.type = some (.inl "array"))
    (hmi : s.minItems = none) (hma : s.maxItems = none) (hit : s.items = some (.inl A)) :
    walkE O fs (.arr vs) s =
    firstErr ((sampleGo vs.length (stepOf fs vs.length) vs.length 0).map
      (fun idx => seg (toString idx) (walkE O fs (vs.getD idx .null) A))) := by
  rw [walkE_eq]
  unfold walkStep
  rw [ha]
  dsimp only
  rw [he, ht]
  dsimp only [typeFirst]
  rw [enumCheck_none, orElse_none_left rfl, typeKindCheck_array_arr, orElse_none_left rfl,
    numCheck_not_num _ _ _ _ (by intro q h; cases h),
    orElse_none_left rfl,
    strCheck_not_str _ _ _ _ _ _ (by intro a h; cases h),
    orElse_none_left rfl]
  have hno : ¬ ((some "array" : Option String) = some "object") := by decide
  rw [if_neg hno, if_pos rfl]
  unfold arrStep
  rw [hit]
  dsimp only
  rw [hmi, hma]
  dsimp only
  rw [orElse_none_left rfl, orElse_none_left rfl]

/-- Boolean form of `walkE_homog`: `validate` on a homogeneous array is
the conjunction of the element validations at the sampled indices. -/
theorem validate_homog {O : Oracles} {fs : Bool} {s A : Schema} {vs : List JVal}
    (ha : s.anyOf = none) (he : s.enum = none) (ht : s.type = some (.inl "array"))
    (hmi : s.minItems = none) (hma : s.maxItems = none) (hit : s.items = some (.inl A)) :
    validate O (.arr vs) s fs =
    (sampleGo vs.length (stepOf fs vs.length) vs.length 0).all
      (fun idx => validate O (vs.getD idx .null) A fs) := by
  rw [validate_eq_walkE, walkE_homog ha he ht hmi hma hit, firstErr_map_isNone]
  apply listAllCongr
  intro idx _
  rw [seg_isNone]
  rfl

/-! ## The sampling loop -/

theorem stepOf_full (len : ℕ) : stepOf true len = 1 := rfl

theorem stepOf_small {len : ℕ} (h : len ≤ STRIDE) : stepOf false len = 1 := by
  simp only [stepOf, Bool.false_or, decide_eq_true_eq]
  rw [if_pos h]

theorem stepOf_large {len : ℕ} (h : STRIDE < len) : stepOf false len = len / STRIDE := by
  simp only [stepOf, Bool.false_or, decide_eq_true_eq]
  rw [if_neg (by omega)]

theorem sampleGo_zero_fuel (len step i : ℕ) : sampleGo len step 0 i = [] := rfl

theorem sampleGo_stop {len step fuel i : ℕ} (h : ¬ i < len) :
    sampleGo len step fuel i = [] := by
  cases fuel with
  | zero => rfl
  | succ fuel => rw [sampleGo.eq_2, if_neg h]

theorem sampleGo_succ_forced {len step fuel i : ℕ} (hi : i < len)
    (hc : 1 < step ∧ len - 1 - step < i) :
    sampleGo len step (fuel + 1) i = [len - 1] := by
  rw [sampleGo.eq_2, if_pos hi]
  show (if (if 1 < step ∧ len - 1 - step < i then len - 1 else i) = len - 1
    then [if 1 < step ∧ len - 1 - step < i then len - 1 else i]
    else (if 1 < step ∧ len - 1 - step < i then len - 1 else i) ::
      sampleGo len step fuel (i + step)) = [len - 1]
  rw [if_pos hc, if_pos rfl]

theorem sampleGo_succ_last {len step fuel i : ℕ} (hi : i < len)
    (hg : ¬ (1 < step ∧ len - 1 - step < i)) (hl : i = len - 1) :
    sampleGo len step (fuel + 1) i = [len - 1] := by
  rw [sampleGo.eq_2, if_pos hi]
  show (if (if 1 < step ∧ len - 1 - step < i then len - 1 else i) = len - 1
    then [if 1 < step ∧ len - 1 - step < i then len - 1 else i]
    else (if 1 < step ∧ len - 1 - step < i then len - 1 else i) ::
      sampleGo len step fuel (i + step)) = [len - 1]
  rw [if_neg hg, if_pos hl, hl]

theorem sampleGo_succ_cons {len step fuel i : ℕ} (hi : i < len)
    (hg : ¬ (1 < step ∧ len - 1 - step < i)) (hl : i ≠ len - 1) :
    sampleGo len step (fuel + 1) i = i :: sampleGo len step fuel (i + step) := by
  rw [sampleGo.eq_2, if_pos hi]
  show (if (if 1 < step ∧ len - 1 - step < i then len - 1 else i) = len - 1
    then [if 1 < step ∧ len - 1 - step < i then len - 1 else i]
    else (if 1 < step ∧ len - 1 - step < i then len - 1 else i) ::
      sampleGo len step fuel (i + step)) = i :: sampleGo len step fuel (i + step)
  rw [if_neg hg, if_neg hl]

theorem sampleGo_one : ∀ (fuel len i : ℕ), len - i ≤ fuel →
    sampleGo len 1 fuel i = List.range' i (len - i) := by
  intro fuel
  induction fuel with
  | zero =>
    intro len i h
    rw [show len - i = 0 from by omega]
    rfl
  | succ fuel ih =>
    intro len i h
    by_cases hi : i < len
    · have hg : ¬ (1 < 1 ∧ len - 1 - 1 < i) := by rintro ⟨h1, _⟩; omega
      by_cases hl : i = len - 1
      · rw [sampleGo_succ_last hi hg hl]
        rw [show len - i = 1 from by omega]
        rw [hl]
        rfl
      · rw [sampleGo_succ_cons hi hg hl, ih len (i + 1) (by omega)]
        rw [show len - i = (len - (i + 1)) + 1 from by omega]
        rfl
    · rw [sampleGo_stop hi, show len - i = 0 from by omega]
      rfl

theorem sampleGo_sound {len step : ℕ} (h0 : 0 < step) (h1 : step < len) :
    ∀ (fuel i x : ℕ), step ∣ i → x ∈ sampleGo len step fuel i →
    (step ∣ x ∧ x + step ≤ len - 1) ∨ x = len - 1 := by
  intro fuel
  induction fuel with
  | zero => intro i x _ hx; simp [sampleGo_zero_fuel] at hx
  | succ fuel ih =>
    intro i x hdvd hx
    by_cases hi : i < len
    · by_cases hc : 1 < step ∧ len - 1 - step < i
      · rw [sampleGo_succ_forced hi hc] at hx
        right
        simpa using hx
      · by_cases hl : i = len - 1
        · rw [sampleGo_succ_last hi hc hl] at hx
          right
          simpa using hx
        · rw [sampleGo_succ_cons hi hc hl] at hx
          rcases List.mem_cons.mp hx with h2 | h2
          · have hxi : x = i := h2
            left
            constructor
            · rw [hxi]; exact hdvd
            · by_cases hs : 1 < step
              · have hni : ¬ (len - 1 - step < i) := fun hlt => hc ⟨hs, hlt⟩
                omega
              · omega
          · exact ih (i + step) x (Dvd.dvd.add hdvd dvd_rfl) h2
    · rw [sampleGo_stop hi] at hx
      simp at hx

theorem sampleGo_complete {len step : ℕ} (h0 : 0 < step) (h1 : step < len) :
    ∀ (fuel i x : ℕ), step ∣ i → step ∣ x → i ≤ x → x + step ≤ len - 1 →
    len - i ≤ fuel → x ∈ sampleGo len step fuel i := by
  intro fuel
  induction fuel with
  | zero => intro i x _ _ hix hx hf; omega
  | succ fuel ih =>
    intro i x hdi hdx hix hx hf
    have hi : i < len := by omega
    have hc : ¬ (1 < step ∧ len - 1 - step < i) := by
      rintro ⟨hs, hlt⟩
      omega
    have hl : ¬ (i = len - 1) := by omega
    rw [sampleGo_succ_cons hi hc hl]
    by_cases hxi : x = i
    · subst hxi; exact List.mem_cons_self _ _
    · have hgap : i + step ≤ x := by
        have hdsub : step ∣ x - i := Nat.dvd_sub' hdx hdi
        have hpos : 0 < x - i := by omega
        have := Nat.le_of_dvd hpos hdsub
        omega
      exact List.mem_cons_of_mem _
        (ih (i + step) x (Dvd.dvd.add hdi dvd_rfl) hdx hgap hx (by omega))

theorem sampleGo_last {len step : ℕ} (h0 : 0 < step) (h1 : step < len) :
    ∀ (fuel i : ℕ), i < len → len - i ≤ fuel → (len - 1) ∈ sampleGo len step fuel i := by
  intro fuel
  induction fuel with
  | zero => intro i hi hf; omega
  | succ fuel ih =>
    intro i hi hf
    by_cases hc : 1 < step ∧ len - 1 - step < i
    · rw [sampleGo_succ_forced hi hc]
      exact List.mem_singleton.mpr rfl
    · by_cases hl : i = len - 1
      · rw [sampleGo_succ_last hi hc hl]
        exact List.mem_singleton.mpr rfl
      · rw [sampleGo_succ_cons hi hc hl]
        have hstep : i + step < len := by
          by_cases hs : 1 < step
          · have : ¬ (len - 1 - step < i) := fun hlt => hc ⟨hs, hlt⟩
            omega
          · omega
        exact List.mem_cons_of_mem _ (ih (i + step) hstep (by omega))

theorem sampleGo_zero_mem {len step : ℕ} (hl : 0 < len) (fuel : ℕ) :
    0 ∈ sampleGo len step (fuel + 1) 0 := by
  have hg : ¬ (1 < step ∧ len - 1 - step < 0) := by rintro ⟨_, h⟩; omega
  by_cases h0 : (0 : ℕ) = len - 1
  · rw [sampleGo_succ_last hl hg h0]
    exact List.mem_singleton.mpr h0
  · rw [sampleGo_succ_cons hl hg h0]
    exact List.mem_cons_self _ _

/-- Scanning all indices of `vs` equals scanning its elements. -/
theorem range'_all_getD (p : JVal → Bool) :
    ∀ (vs : List JVal) (st : ℕ),
    (List.range' st vs.length).all (fun idx => p (vs.getD (idx - st) .null)) = vs.all p := by
  intro vs
  induction vs with
  | nil => intro st; rfl
  | cons x xs ih =>
    intro st
    show (List.range' st (xs.length + 1)).all _ = _
    rw [List.range'_succ]
    simp only [List.all_cons, Nat.sub_self, List.getD_cons_zero]
    have hcongr : (List.range' (st + 1) xs.length).all
        (fun idx => p ((x :: xs).getD (idx - st) .null)) =
        (List.range' (st + 1) xs.length).all (fun idx => p (xs.getD (idx - (st + 1)) .null)) := by
      apply listAllCongr
      intro idx hidx
      have hge : st + 1 ≤ idx := (List.mem_range'_1.mp hidx).1
      rw [show idx - st = (idx - (st + 1)) + 1 from by omega, List.getD_cons_succ]
    rw [hcongr, ih (st + 1)]

/-! ## Branch isolation lemmas -/

theorem listAllFalse {l : List α} {f : α → Bool} {x : α} (hx : x ∈ l) (hf : f x = false) :
    l.all f = false := by
  induction l with
  | nil => cases hx
  | cons y ys ih =>
    rcases List.mem_cons.mp hx with h1 | h2
    · subst h1; simp [List.all_cons, hf]
    · simp [List.all_cons, ih h2]

/-- On an array value whose schema declares type `"array"` (and no union),
`walk` reduces to the enum check plus the array body. -/
theorem validate_arr_split {O : Oracles} {fs : Bool} {s : Schema} {vs : List JVal}
    (ha : s.anyOf = none) (ht : s.type = some (.inl "array")) :
    validate O (.arr vs) s fs =
    ((enumCheck s.enum (.arr vs)).isNone &&
     (arrStep (fun v2 s2 => walkE O fs v2 s2) fs s vs).isNone) := by
  rw [validate_eq_walkE, walkE_eq]
  unfold walkStep
  rw [ha]
  dsimp only
  rw [ht]
  dsimp only [typeFirst]
  rw [typeKindCheck_array_arr,
    numCheck_not_num _ _ _ _ (by intro q h; cases h),
    strCheck_not_str _ _ _ _ _ _ (by intro a h; cases h)]
  have hno : ¬ ((some "array" : Option String) = some "object") := by decide
  rw [if_neg hno, if_pos rfl]
  cases he : enumCheck s.enum (.arr vs) with
  | none =>
    rw [orElse_none_left rfl, orElse_none_left rfl, orElse_none_left rfl]
    simp
  | some e =>
    rw [orElse_some_left rfl]
    simp

/-- On an object value whose schema declares type `"object"` (and no
union), `walk` reduces to the enum check plus the object body. -/
theorem validate_obj_split {O : Oracles} {fs : Bool} {s : Schema} {kvs : List (String × JVal)}
    (ha : s.anyOf = none) (ht : s.type = some (.inl "object")) :
    validate O (.obj kvs) s fs =
    ((enumCheck s.enum (.obj kvs)).isNone &&
     (objStep (fun v2 s2 => walkE O fs v2 s2) fs s kvs).isNone) := by
  rw [validate_eq_walkE, walkE_eq]
  unfold walkStep
  rw [ha]
  dsimp only
  rw [ht]
  dsimp only [typeFirst]
  rw [typeKindCheck_object_obj,
    numCheck_not_num _ _ _ _ (by intro q h; cases h),
    strCheck_not_str _ _ _ _ _ _ (by intro a h; cases h)]
  rw [if_pos rfl]
  cases he : enumCheck s.enum (.obj kvs) with
  | none =>
    rw [orElse_none_left rfl, orElse_none_left rfl, orElse_none_left rfl]
    simp
  | some e =>
    rw [orElse_some_left rfl]
    simp

/-- A violating element at a sampled index sinks the homogeneous-array
body. -/
theorem arrStep_homog_false {w : JVal → Schema → Option VErr} {fs : Bool} {s A : Schema}
    {vs : List JVal} (hit : s.items = some (.inl A)) {idx : ℕ}
    (hmem : idx ∈ sampleGo vs.length (stepOf fs vs.length) vs.length 0)
    (hbad : (w (vs.getD idx .null) A).isNone = false) :
    (arrStep w fs s vs).isNone = false := by
  unfold arrStep
  rw [hit]
  dsimp only
  rw [orElse_isNone, orElse_isNone, firstErr_map_isNone]
  have hall : (sampleGo vs.length (stepOf fs vs.length) vs.length 0).all
      (fun idx => (seg (toString idx) (w (vs.getD idx .null) A)).isNone) = false := by
    apply listAllFalse hmem
    rw [seg_isNone, hbad]
  rw [hall]
  simp

/-- A violating value at a sampled extra key sinks the dictionary body. -/
theorem objStep_addl_false {w : JVal → Schema → Option VErr} {fs : Bool} {s A : Schema}
    {kvs : List (String × JVal)} (hap : s.additionalProperties = some A)
    {kv : String × JVal}
    (hmem : kv ∈ (if fs then kvs.filter (fun kv => !(propsHas s.properties kv.1))
      else strideSelect (kvs.filter (fun kv => !(propsHas s.properties kv.1)))))
    (hbad : (w kv.2 A).isNone = false) :
    (objStep w fs s kvs).isNone = false := by
  unfold objStep
  rw [hap]
  dsimp only
  rw [orElse_isNone, orElse_isNone, orElse_isNone, firstErr_map_isNone]
  have hall : ((if fs then kvs.filter (fun kv => !(propsHas s.properties kv.1))
      else strideSelect (kvs.filter (fun kv => !(propsHas s.properties kv.1))))).all
      (fun kv => (seg kv.1 (w kv.2 A)).isNone) = false := by
    apply listAllFalse hmem
    rw [seg_isNone, hbad]
  rw [hall]
  simp

/-! ## Concrete schema nodes used by closed statements -/

def numberSchema : Schema :=
  .mk (some (.inl "number")) none none none none none none none none none none none none
    none none none none none none none none

def stringSchema : Schema :=
  .mk (some (.inl "string")) none none none none none none none none none none none none
    none none none none none none none none

def boolSchema : Schema :=
  .mk (some (.inl "boolean")) none none none none none none none none none none none none
    none none none none none none none none

/-- `s.object({id: s.number, email: s.string})`. -/
def userSchema : Schema :=
  .mk (some (.inl "object")) none none none none none none none none none none none none
    (some [("id", numberSchema), ("email", stringSchema)]) (some ["id", "email"]) none
    none none none none none

/-- `{type: "array", minItems: 5}` — an array node without `items`. -/
def sArrNoItems : Schema :=
  .mk (some (.inl "array")) none none none none none none none none none (some 5) none
    none none none none none none none none none

/-- C1: the "any" schema (no `type`, no `anyOf`) matches every value —
but the source's null/undefined branch (`Array.isArray(s.type) &&
s.type.includes("null") || err("Expected value")`) rejects `null` and
`undefined` when `type` is absent, contradicting the claim, the spec and
`any.test.ts`.  The theorem records the code's actual behaviour at the
failing input: non-null values pass, `null`/`undefined` fail with
"Expected value" at path "root". -/
theorem claimC1_any_schema_code_behaviour :
    validate oracleTrue .null emptySchema false = false ∧
    callbackCalls oracleTrue .null emptySchema false = [("root", "Expected value")] ∧
    validate oracleTrue (.num 3) emptySchema false = true ∧
    validate oracleTrue (.str "x") emptySchema false = true ∧
    validate oracleTrue (.bool true) emptySchema false = true ∧
    validate oracleTrue (.arr [.num 1, .num 2]) emptySchema false = true ∧
    validate oracleTrue (.obj [("a", .num 1)]) emptySchema false = true := by
  decide

/-- C5: `validate(v, {anyOf:[A,B]})` is true iff `validate(v, A)` or
`validate(v, B)` is, each attempt being a fresh top-level validation
(`fullScan = false`, errors of the attempts discarded); when both fail the
violation is "Union mismatch" at the current path (the empty segment list,
rendered "root" at top level). -/
theorem claimC5_union :
    (∀ (O : Oracles) (fs : Bool) (v : JVal) (s A B : Schema), s.anyOf = some [A, B] →
      validate O v s fs = (validate O v A false || validate O v B false)) ∧
    (∀ (O : Oracles) (fs : Bool) (v : JVal) (s A B : Schema), s.anyOf = some [A, B] →
      validate O v A false = false → validate O v B false = false →
      walkE O fs v s = some ([], "Union mismatch") ∧ validate O v s fs = false) := by
  have hbase : ∀ (O : Oracles) (fs : Bool) (v : JVal) (s A B : Schema), s.anyOf = some [A, B] →
      walkE O fs v s =
      (if (validate O v A false || validate O v B false) = true then none
       else some ([], "Union mismatch")) := by
    intro O fs v s A B ha
    rw [walkE_eq]
    unfold walkStep
    rw [ha]
    dsimp only
    have : ([A, B].any fun sub => (walkE O false v sub).isNone) =
        (validate O v A false || validate O v B false) := by
      simp [List.any, validate_eq_walkE]
    rw [this]
  constructor
  · intro O fs v s A B ha
    rw [validate_eq_walkE, hbase O fs v s A B ha]
    cases h : (validate O v A false || validate O v B false) <;> simp [h]
  · intro O fs v s A B ha hA hB
    have hor : (validate O v A false || validate O v B false) = false := by
      rw [hA, hB]; rfl
    constructor
    · rw [hbase O fs v s A B ha, hor]
      simp
    · rw [validate_eq_walkE, hbase O fs v s A B ha, hor]
      simp

/-- Union schema `{anyOf: [number, string]}`. -/
def unionNumStr : Schema :=
  .mk none (some [numberSchema, stringSchema]) none none none none none none none none
    none none none none none none none none none none none

theorem claimC5_union_witness :
    validate oracleTrue (.str "x") unionNumStr false =
      (validate oracleTrue (.str "x") numberSchema false ||
       validate oracleTrue (.str "x") stringSchema false) ∧
    validate oracleTrue (.bool true) unionNumStr false = false ∧
    walkE oracleTrue false (.bool true) unionNumStr = some ([], "Union mismatch") := by
  refine ⟨claimC5_union.1 oracleTrue false (.str "x") unionNumStr numberSchema stringSchema rfl,
    ?_, ?_⟩
  · exact (claimC5_union.2 oracleTrue false (.bool true) unionNumStr numberSchema stringSchema
      rfl (by decide) (by decide)).2
  · exact (claimC5_union.2 oracleTrue false (.bool true) unionNumStr numberSchema stringSchema
      rfl (by decide) (by decide)).1

/-- C6 counterexample: on `{type:"array", minItems:5}` (no `items` key)
the empty array validates `true` — the whole array body, length checks
included, is guarded by `s.items` being truthy — where the claim requires
`false` ("Array too short"). -/
theorem claimC6_counterexample :
    validate oracleTrue (.arr []) sArrNoItems false = true ∧
    validate oracleTrue (.arr []) sArrNoItems true = true := by
  decide

/-- C6 (amended): for an array-typed schema node that does carry an
`items` key (single node or tuple list), a length below `minItems` fails
with "Array too short" and a length above `maxItems` fails with "Array too
long"; with `items` absent the checks are skipped. -/
theorem claimC6_amended_length_checks :
    (∀ (O : Oracles) (fs : Bool) (s : Schema) (it : Schema ⊕ List Schema) (vs : List JVal)
      (m : ℚ),
      s.anyOf = none → s.enum = none → s.type = some (.inl "array") → s.items = some it →
      s.minItems = some m → (vs.length : ℚ) < m →
      walkE O fs (.arr vs) s = some ([], "Array too short") ∧
      validate O (.arr vs) s fs = false) ∧
    (∀ (O : Oracles) (fs : Bool) (s : Schema) (it : Schema ⊕ List Schema) (vs : List JVal)
      (m : ℚ),
      s.anyOf = none → s.enum = none → s.type = some (.inl "array") → s.items = some it →
      s.minItems = none → s.maxItems = some m → m < (vs.length : ℚ) →
      walkE O fs (.arr vs) s = some ([], "Array too long") ∧
      validate O (.arr vs) s fs = false) := by
  have hbody : ∀ (O : Oracles) (fs : Bool) (s : Schema) (vs : List JVal),
      s.anyOf = none → s.enum = none → s.type = some (.inl "array") →
      walkE O fs (.arr vs) s = arrStep (fun v2 s2 => walkE O fs v2 s2) fs s vs := by
    intro O fs s vs ha he ht
    rw [walkE_eq]
    unfold walkStep
    rw [ha]
    dsimp only
    rw [he, ht]
    dsimp only [typeFirst]
    rw [enumCheck_none, orElse_none_left rfl, typeKindCheck_array_arr, orElse_none_left rfl,
      numCheck_not_num _ _ _ _ (by intro q h; cases h), orElse_none_left rfl,
      strCheck_not_str _ _ _ _ _ _ (by intro a h; cases h), orElse_none_left rfl]
    have hno : ¬ ((some "array" : Option String) = some "object") := by decide
    rw [if_neg hno, if_pos rfl]
  constructor
  · intro O fs s it vs m ha he ht hit hmi hlen
    have h1 : walkE O fs (.arr vs) s = some ([], "Array too short") := by
      rw [hbody O fs s vs ha he ht]
      unfold arrStep
      rw [hit]
      dsimp only
      rw [hmi]
      dsimp only
      rw [if_pos hlen]
      exact orElse_some_left rfl
    exact ⟨h1, by rw [validate_eq_walkE, h1]; rfl⟩
  · intro O fs s it vs m ha he ht hit hmi hma hlen
    have h1 : walkE O fs (.arr vs) s = some ([], "Array too long") := by
      rw [hbody O fs s vs ha he ht]
      unfold arrStep
      rw [hit]
      dsimp only
      rw [hmi, hma]
      dsimp only
      rw [orElse_none_left rfl, if_pos hlen]
      exact orElse_some_left rfl
    exact ⟨h1, by rw [validate_eq_walkE, h1]; rfl⟩

/-- A tuple schema `[number, number]` with `minItems = maxItems = 2`, as
the builder's `s.tuple` produces. -/
def pairTupleSchema : Schema :=
  .mk (some (.inl "array")) none none none none none none none none none (some 2) (some 2)
    (some (.inr [numberSchema, numberSchema])) none none none none none none none none

theorem claimC6_amended_witness :
    walkE oracleTrue false (.arr [.num 1]) pairTupleSchema = some ([], "Array too short") := by
  exact (claimC6_amended_length_checks.1 oracleTrue false pairTupleSchema
    (.inr [numberSchema, numberSchema]) [.num 1] 2 rfl rfl rfl rfl rfl (by decide)).1

/-- C8: `validate` is a total boolean function; when it returns `false`
and a callback was supplied, the callback fires exactly once, with the
dot-joined path of the first violation (`"root"` when no traversal
occurred) and its message, and no invocation happens on success.  The
closed conjunct checks the end-to-end example: `{id:"1"}` against the
user schema reports path `"id"`. -/
theorem claimC8_error_callback :
    (∀ (O : Oracles) (v : JVal) (s : Schema) (fs : Bool),
      (callbackCalls O v s fs).length ≤ 1) ∧
    (∀ (O : Oracles) (v : JVal) (s : Schema) (fs : Bool),
      validate O v s fs = true ↔ callbackCalls O v s fs = []) ∧
    (∀ (O : Oracles) (v : JVal) (s : Schema) (fs : Bool),
      validate O v s fs = false →
      ∃ segs msg, walkE O fs v s = some (segs, msg) ∧
        callbackCalls O v s fs = [(renderPath segs, msg)]) ∧
    (callbackCalls oracleTrue (.obj [("id", .str "1"), ("email", .str "x")]) userSchema false =
      [("id", "Expected number")] ∧
     validate oracleTrue (.obj [("id", .num 1), ("email", .str "x")]) userSchema false = true ∧
     validate oracleTrue .null userSchema false = false) := by
  refine ⟨?_, ?_, ?_, by decide⟩
  · intro O v s fs
    unfold callbackCalls
    cases h : walkF (ssize s) O fs v s <;> simp
  · intro O v s fs
    unfold validate callbackCalls
    cases h : walkF (ssize s) O fs v s <;> simp
  · intro O v s fs hfalse
    unfold validate at hfalse
    unfold callbackCalls
    cases h : walkF (ssize s) O fs v s with
    | none => rw [h] at hfalse; cases hfalse
    | some e =>
      refine ⟨e.1, e.2, ?_, ?_⟩
      · show walkF (ssize s) O fs v s = some (e.1, e.2)
        rw [h]
      · rfl

theorem claimC8_witness :
    ∃ segs msg, walkE oracleTrue false .null userSchema = some (segs, msg) ∧
      callbackCalls oracleTrue .null userSchema false = [(renderPath segs, msg)] :=
  claimC8_error_callback.2.2.1 oracleTrue .null userSchema false (by decide)

/-! ## Dictionary sampling -/

theorem filter_propsHas_none (kvs : List (String × JVal)) :
    kvs.filter (fun kv => !(propsHas none kv.1)) = kvs := by
  have h : (fun kv : String × JVal => !(propsHas none kv.1)) = fun _ => true := by
    funext kv
    rfl
  rw [h, List.filter_true]

/-- With `fullScan = false`, fewer than `STRIDE` keys means the counter
`i` never reaches a multiple of `STRIDE`, so nothing is selected. -/
theorem strideSelect_short {l : List (String × JVal)} (h : l.length < STRIDE) :
    strideSelect l = [] := by
  unfold strideSelect
  have hf : l.enum.filter (fun p => (p.1 + 1) % STRIDE == 0) = [] := by
    rw [List.filter_eq_nil_iff]
    intro p hp
    have hget := List.mem_enum_iff_getElem?.mp hp
    obtain ⟨hlt, _⟩ := List.getElem?_eq_some.mp hget
    simp only [beq_iff_eq, STRIDE] at *
    omega
  rw [hf]
  rfl

/-- `validate` on a record schema (`additionalProperties` a node, no
declared properties): exactly the selected extra keys are validated. -/
theorem validate_record {O : Oracles} {fs : Bool} {s A : Schema} {kvs : List (String × JVal)}
    (ha : s.anyOf = none) (he : s.enum = none) (ht : s.type = some (.inl "object"))
    (hmp : s.minProperties = none) (hrq : s.required = none) (hpr : s.properties = none)
    (hap : s.additionalProperties = some A) :
    validate O (.obj kvs) s fs =
    (if fs then kvs else strideSelect kvs).all (fun kv => validate O kv.2 A fs) := by
  rw [validate_obj_split ha ht, he, enumCheck_none]
  unfold objStep
  rw [hmp, hrq, hpr, hap]
  dsimp only
  rw [orElse_none_left rfl]
  rw [orElse_none_left (show requiredCheck none kvs = none from rfl)]
  rw [orElse_none_left rfl]
  simp only [filter_propsHas_none, firstErr_map_isNone]
  rw [show ((none : Option VErr).isNone) = true from rfl, Bool.true_and]
  apply listAllCongr
  intro kv _
  rw [seg_isNone]
  rfl

/-- C7: with `fullScan = false`, dictionary validation against an
`additionalProperties` schema visits exactly the extra keys whose 1-based
visit counter is divisible by `STRIDE = 97`; an object with fewer than 97
non-declared keys therefore has no key validated at all (in particular
neither the first nor the last), and such objects validate `true` no
matter what the `additionalProperties` schema says. -/
theorem claimC7_dict_stride :
    (∀ (O : Oracles) (s A : Schema) (kvs : List (String × JVal)),
      s.anyOf = none → s.enum = none → s.type = some (.inl "object") →
      s.minProperties = none → s.required = none → s.properties = none →
      s.additionalProperties = some A →
      validate O (.obj kvs) s false =
        (strideSelect kvs).all (fun kv => validate O kv.2 A false)) ∧
    (∀ (l : List (String × JVal)) (kv : String × JVal),
      kv ∈ strideSelect l ↔ ∃ i : ℕ, l[i]? = some kv ∧ (i + 1) % STRIDE = 0) ∧
    (∀ (O : Oracles) (s A : Schema) (kvs : List (String × JVal)),
      s.anyOf = none → s.enum = none → s.type = some (.inl "object") →
      s.minProperties = none → s.required = none → s.properties = none →
      s.additionalProperties = some A → kvs.length < STRIDE →
      validate O (.obj kvs) s false = true) := by
  refine ⟨?_, ?_, ?_⟩
  · intro O s A kvs ha he ht hmp hrq hpr hap
    exact validate_record ha he ht hmp hrq hpr hap
  · intro l kv
    unfold strideSelect
    constructor
    · intro h
      obtain ⟨p, hp, hpe⟩ := List.mem_map.mp h
      obtain ⟨hpenum, hcond⟩ := List.mem_filter.mp hp
      refine ⟨p.1, ?_, ?_⟩
      · rw [← hpe]
        exact List.mem_enum_iff_getElem?.mp hpenum
      · simpa [beq_iff_eq] using hcond
    · rintro ⟨i, hget, hmod⟩
      apply List.mem_map.mpr
      refine ⟨(i, kv), List.mem_filter.mpr ⟨?_, ?_⟩, rfl⟩
      · exact List.mem_enum_iff_getElem?.mpr hget
      · simpa [beq_iff_eq] using hmod
  · intro O s A kvs ha he ht hmp hrq hpr hap hlen
    rw [validate_record ha he ht hmp hrq hpr hap, strideSelect_short hlen]
    rfl

/-- A record schema, `s.record(s.boolean)`. -/
def recordBoolSchema : Schema :=
  .mk (some (.inl "object")) none none none none none none none none none none none none
    none none (some boolSchema) none none none none none

theorem claimC7_witness :
    validate oracleTrue (.obj [("a", .num 1)]) recordBoolSchema false = true :=
  claimC7_dict_stride.2.2 oracleTrue recordBoolSchema boolSchema [("a", .num 1)]
    rfl rfl rfl rfl rfl rfl rfl (by decide)

/-- C3: with `fullScan = true` sampling is disabled on both containers: a
single invalid element at any index of a homogeneous array, and an invalid
value at any non-declared key screened by an `additionalProperties`
schema, each force `validate` to return `false`. -/
theorem claimC3_fullscan_detects :
    (∀ (O : Oracles) (s A : Schema) (vs : List JVal) (j : ℕ),
      s.anyOf = none → s.type = some (.inl "array") → s.items = some (.inl A) →
      j < vs.length → validate O (vs.getD j .null) A true = false →
      validate O (.arr vs) s true = false) ∧
    (∀ (O : Oracles) (s A : Schema) (kvs : List (String × JVal)) (k : String) (u : JVal),
      s.anyOf = none → s.type = some (.inl "object") → s.additionalProperties = some A →
      (k, u) ∈ kvs → propsHas s.properties k = false → validate O u A true = false →
      validate O (.obj kvs) s true = false) := by
  constructor
  · intro O s A vs j ha ht hit hj hbad
    rw [validate_arr_split ha ht]
    have hmem : j ∈ sampleGo vs.length (stepOf true vs.length) vs.length 0 := by
      rw [stepOf_full, sampleGo_one vs.length vs.length 0 (by omega)]
      exact List.mem_range'_1.mpr ⟨Nat.zero_le j, by omega⟩
    rw [@arrStep_homog_false (fun v2 s2 => walkE O true v2 s2) true s A vs hit j hmem hbad]
    simp
  · intro O s A kvs k u ha ht hap hkv hnotdecl hbad
    rw [validate_obj_split ha ht]
    have hmem : (k, u) ∈ (if true then kvs.filter (fun kv => !(propsHas s.properties kv.1))
        else strideSelect (kvs.filter (fun kv => !(propsHas s.properties kv.1)))) := by
      rw [if_pos rfl]
      exact List.mem_filter.mpr ⟨hkv, by rw [hnotdecl]; rfl⟩
    rw [@objStep_addl_false (fun v2 s2 => walkE O true v2 s2) true s A kvs hap (k, u) hmem hbad]
    simp

/-- `s.array(s.boolean)`. -/
def arrBoolSchema : Schema :=
  .mk (some (.inl "array")) none none none none none none none none none none none
    (some (.inl boolSchema)) none none none none none none none none

theorem claimC3_witness :
    validate oracleTrue (.arr [.bool true, .num 0, .bool false]) arrBoolSchema true = false ∧
    validate oracleTrue (.obj [("a", .num 1)]) recordBoolSchema true = false :=
  ⟨claimC3_fullscan_detects.1 oracleTrue arrBoolSchema boolSchema
      [.bool true, .num 0, .bool false] 1 rfl rfl rfl (by decide) (by decide),
   claimC3_fullscan_detects.2 oracleTrue recordBoolSchema boolSchema
      [("a", .num 1)] "a" (.num 1) rfl rfl rfl (List.mem_cons_self _ _) (by decide) (by decide)⟩

/-- C2: the homogeneous-array sampling policy with `fullScan = false`.
Lengths up to `STRIDE = 97` scan every element; above that, with
`step = len / 97`, the scanned index set is exactly the multiples of
`step` up to the tail window plus `len - 1`, so a violation at index `0`
or `len - 1` is always detected, while a violation at an interior index
that is neither a multiple of `step` nor within one `step` of the tail is
never detected when every other element is valid. -/
theorem claimC2_array_sampling :
    (∀ (O : Oracles) (s A : Schema) (vs : List JVal),
      s.anyOf = none → s.enum = none → s.type = some (.inl "array") →
      s.minItems = none → s.maxItems = none → s.items = some (.inl A) →
      vs.length ≤ STRIDE →
      validate O (.arr vs) s false = vs.all (fun u => validate O u A false)) ∧
    (∀ (O : Oracles) (s A : Schema) (vs : List JVal),
      s.anyOf = none → s.enum = none → s.type = some (.inl "array") →
      s.minItems = none → s.maxItems = none → s.items = some (.inl A) →
      STRIDE < vs.length →
      validate O (.arr vs) s false =
        (sampleGo vs.length (vs.length / STRIDE) vs.length 0).all
          (fun idx => validate O (vs.getD idx .null) A false) ∧
      (∀ x : ℕ, x ∈ sampleGo vs.length (vs.length / STRIDE) vs.length 0 ↔
        ((vs.length / STRIDE ∣ x ∧ x + vs.length / STRIDE ≤ vs.length - 1) ∨
          x = vs.length - 1))) ∧
    (∀ (O : Oracles) (s A : Schema) (vs : List JVal),
      s.anyOf = none → s.enum = none → s.type = some (.inl "array") →
      s.minItems = none → s.maxItems = none → s.items = some (.inl A) →
      STRIDE < vs.length →
      (validate O (vs.getD 0 .null) A false = false ∨
       validate O (vs.getD (vs.length - 1) .null) A false = false) →
      validate O (.arr vs) s false = false) ∧
    (∀ (O : Oracles) (s A : Schema) (vs : List JVal) (j : ℕ),
      s.anyOf = none → s.enum = none → s.type = some (.inl "array") →
      s.minItems = none → s.maxItems = none → s.items = some (.inl A) →
      STRIDE < vs.length →
      0 < j → ¬ (vs.length / STRIDE ∣ j) → j + vs.length / STRIDE ≤ vs.length - 1 →
      (∀ i : ℕ, i < vs.length → i ≠ j → validate O (vs.getD i .null) A false = true) →
      validate O (.arr vs) s false = true) := by
  have hstep : ∀ vs : List JVal, STRIDE < vs.length → stepOf false vs.length =
      vs.length / STRIDE := fun vs h => stepOf_large h
  have hpos : ∀ vs : List JVal, STRIDE < vs.length → 0 < vs.length / STRIDE := by
    intro vs h
    apply Nat.div_pos (by simp only [STRIDE] at *; omega) (by simp [STRIDE])
  have hlt : ∀ vs : List JVal, STRIDE < vs.length → vs.length / STRIDE < vs.length := by
    intro vs h
    apply Nat.div_lt_self (by simp only [STRIDE] at *; omega) (by simp [STRIDE])
  refine ⟨?_, ?_, ?_, ?_⟩
  · intro O s A vs ha he ht hmi hma hit hlen
    rw [validate_homog ha he ht hmi hma hit, stepOf_small hlen,
      sampleGo_one vs.length vs.length 0 (by omega)]
    have h1 : (List.range' 0 (vs.length - 0)).all
        (fun idx => validate O (vs.getD idx .null) A false) =
        (List.range' 0 vs.length).all
        (fun idx => validate O (vs.getD (idx - 0) .null) A false) := by
      simp only [Nat.sub_zero]
    rw [show vs.length - 0 = vs.length from rfl] at h1 ⊢
    rw [h1]
    exact range'_all_getD (fun u => validate O u A false) vs 0
  · intro O s A vs ha he ht hmi hma hit hlen
    constructor
    · rw [validate_homog ha he ht hmi hma hit, hstep vs hlen]
    · intro x
      constructor
      · intro hx
        exact sampleGo_sound (hpos vs hlen) (hlt vs hlen) vs.length 0 x (dvd_zero _) hx
      · rintro (⟨hdvd, hle⟩ | hlast)
        · exact sampleGo_complete (hpos vs hlen) (hlt vs hlen) vs.length 0 x (dvd_zero _)
            hdvd (Nat.zero_le x) hle (by omega)
        · subst hlast
          exact sampleGo_last (hpos vs hlen) (hlt vs hlen) vs.length 0 (by
            simp only [STRIDE] at hlen; omega) (by omega)
  · intro O s A vs ha he ht hmi hma hit hlen hbad
    rw [validate_homog ha he ht hmi hma hit, hstep vs hlen]
    have hlen0 : 0 < vs.length := by simp only [STRIDE] at hlen; omega
    rcases hbad with h0 | h1
    · have hmem : 0 ∈ sampleGo vs.length (vs.length / STRIDE) vs.length 0 := by
        have := @sampleGo_zero_mem vs.length (vs.length / STRIDE) hlen0 (vs.length - 1)
        rwa [show vs.length - 1 + 1 = vs.length from by omega] at this
      exact listAllFalse hmem h0
    · have hmem : vs.length - 1 ∈ sampleGo vs.length (vs.length / STRIDE) vs.length 0 :=
        sampleGo_last (hpos vs hlen) (hlt vs hlen) vs.length 0 hlen0 (by omega)
      exact listAllFalse hmem h1
  · intro O s A vs j ha he ht hmi hma hit hlen hj0 hjdvd hjtail hrest
    rw [validate_homog ha he ht hmi hma hit, hstep vs hlen]
    apply List.all_eq_true.mpr
    intro x hx
    have hsound := sampleGo_sound (hpos vs hlen) (hlt vs hlen) vs.length 0 x (dvd_zero _) hx
    have hstep1 : 0 < vs.length / STRIDE := hpos vs hlen
    rcases hsound with ⟨hdvd, hle⟩ | hlast
    · have hxj : x ≠ j := fun hexj => hjdvd (hexj ▸ hdvd)
      exact hrest x (by omega) hxj
    · have hxj : x ≠ j := by omega
      have hlen0 : 0 < vs.length := by simp only [STRIDE] at hlen; omega
      exact hrest x (by omega) hxj

set_option maxRecDepth 4000 in
theorem claimC2_witness :
    validate oracleTrue (.arr ((List.range 200).map
      (fun i => if i = 3 then JVal.num 0 else JVal.bool true))) arrBoolSchema false = true :=
  claimC2_array_sampling.2.2.2 oracleTrue arrBoolSchema boolSchema
    ((List.range 200).map (fun i => if i = 3 then JVal.num 0 else JVal.bool true)) 3
    rfl rfl rfl rfl rfl rfl (by decide) (by decide) (by decide) (by decide) (by decide)

/-! ## The diff engine

`diff` compares two schema trees.  `JSON.stringify(x) === JSON.stringify(y)`
on nodes is modelled by the structural `schemaBeq` (fuelled like `walk`,
by `ssize` of the left node); `x.type !== y.type` is `typeJsEq` (strings
compare by value, two array-typed fields are distinct objects and compare
unequal by reference).  `diff` itself is `diffF`, fuelled by the left
node's size. -/

def listBeqWith (eq : Schema → Schema → Bool) : List Schema → List Schema → Bool
  | [], [] => true
  | x :: xs, y :: ys => eq x y && listBeqWith eq xs ys
  | _, _ => false

def propsBeqWith (eq : Schema → Schema → Bool) :
    List (String × Schema) → List (String × Schema) → Bool
  | [], [] => true
  | (k1, s1) :: xs, (k2, s2) :: ys => k1 == k2 && eq s1 s2 && propsBeqWith eq xs ys
  | _, _ => false

/-- Fuelled structural equality of schema nodes (the canonical-order model
of `JSON.stringify` equality). -/
def schemaBeqF : ℕ → Schema → Schema → Bool
  | 0, _, _ => false
  | n + 1, a, b =>
    optBeq typeFieldBeq a.type b.type &&
    (match a.anyOf, b.anyOf with
     | none, none => true
     | some l1, some l2 => listBeqWith (schemaBeqF n) l1 l2
     | _, _ => false) &&
    optBeq JVal.beqList a.enum b.enum &&
    qOptBeq a.minimum b.minimum &&
    qOptBeq a.maximum b.maximum &&
    qOptBeq a.multipleOf b.multipleOf &&
    qOptBeq a.minLength b.minLength &&
    qOptBeq a.maxLength b.maxLength &&
    strOptBeq a.pattern b.pattern &&
    strOptBeq a.format b.format &&
    qOptBeq a.minItems b.minItems &&
    qOptBeq a.maxItems b.maxItems &&
    (match a.items, b.items with
     | none, none => true
     | some (.inl s1), some (.inl s2) => schemaBeqF n s1 s2
     | some (.inr l1), some (.inr l2) => listBeqWith (schemaBeqF n) l1 l2
     | _, _ => false) &&
    (match a.properties, b.properties with
     | none, none => true
     | some l1, some l2 => propsBeqWith (schemaBeqF n) l1 l2
     | _, _ => false) &&
    optBeq strListBeq a.required b.required &&
    (match a.additionalProperties, b.additionalProperties with
     | none, none => true
     | some s1, some s2 => schemaBeqF n s1 s2
     | _, _ => false) &&
    qOptBeq a.minProperties b.minProperties &&
    qOptBeq a.maxProperties b.maxProperties &&
    strOptBeq a.title b.title &&
    strOptBeq a.description b.description &&
    optBeq JVal.beq a.default b.default

/-- `JSON.stringify(a) === JSON.stringify(b)` on schema nodes. -/
def schemaBeq (a b : Schema) : Bool := schemaBeqF (ssize a) a b

theorem listBeqWith_refl {eq : Schema → Schema → Bool} :
    ∀ {l : List Schema}, (∀ x ∈ l, eq x x = true) → listBeqWith eq l l = true
  | [], _ => rfl
  | x :: xs, h => by
    simp only [listBeqWith, Bool.and_eq_true]
    exact ⟨h x (List.mem_cons_self x xs),
      listBeqWith_refl (fun y hy => h y (List.mem_cons_of_mem x hy))⟩

theorem propsBeqWith_refl {eq : Schema → Schema → Bool} :
    ∀ {l : List (String × Schema)}, (∀ kp ∈ l, eq kp.2 kp.2 = true) →
    propsBeqWith eq l l = true
  | [], _ => rfl
  | (k, s) :: xs, h => by
    simp only [propsBeqWith, Bool.and_eq_true]
    refine ⟨⟨by simp, h (k, s) (List.mem_cons_self _ xs)⟩,
      propsBeqWith_refl (fun kp hkp => h kp (List.mem_cons_of_mem _ hkp))⟩

theorem schemaBeqF_refl : ∀ n : ℕ, ∀ s : Schema, ssize s ≤ n → schemaBeqF n s s = true := by
  intro n
  induction n using Nat.strong_induction_on with
  | _ n IH =>
    intro s hs
    have h1 : 1 ≤ ssize s := ssize_pos s
    obtain ⟨n1, rfl⟩ : ∃ n1, n = n1 + 1 := ⟨n - 1, by omega⟩
    simp only [schemaBeqF, Bool.and_eq_true]
    repeat' apply And.intro
    · exact optBeq_refl typeFieldBeq_refl _
    · cases hao : s.anyOf with
      | none => rfl
      | some l =>
        exact listBeqWith_refl (fun x hx =>
          IH n1 (by omega) x (by have := ssize_anyOf_lt hao hx; omega))
    · exact optBeq_refl JVal.beqList_refl _
    · exact qOptBeq_refl _
    · exact qOptBeq_refl _
    · exact qOptBeq_refl _
    · exact qOptBeq_refl _
    · exact qOptBeq_refl _
    · exact strOptBeq_refl _
    · exact strOptBeq_refl _
    · exact qOptBeq_refl _
    · exact qOptBeq_refl _
    · cases hit : s.items with
      | none => rfl
      | some it =>
        cases it with
        | inl s1 =>
          exact IH n1 (by omega) s1 (by have := ssize_items_single_lt hit; omega)
        | inr l =>
          exact listBeqWith_refl (fun x hx =>
            IH n1 (by omega) x (by have := ssize_items_tuple_lt hit hx; omega))
    · cases hpr : s.properties with
      | none => rfl
      | some l =>
        exact propsBeqWith_refl (fun kp hkp =>
          IH n1 (by omega) kp.2 (by have := ssize_props_lt hpr hkp; omega))
    · exact optBeq_refl strListBeq_refl _
    · cases hap : s.additionalProperties with
      | none => rfl
      | some s1 =>
        exact IH n1 (by omega) s1 (by have := ssize_addl_lt hap; omega)
    · exact qOptBeq_refl _
    · exact qOptBeq_refl _
    · exact strOptBeq_refl _
    · exact strOptBeq_refl _
    · exact optBeq_refl JVal.beq_refl _

theorem schemaBeq_refl (s : Schema) : schemaBeq s s = true :=
  schemaBeqF_refl (ssize s) s (le_refl _)

/-- If the stringify check succeeds, the two `maxProperties` (and
`minProperties`) fields agree. -/
theorem schemaBeq_minmaxProps {a b : Schema} (h : schemaBeq a b = true) :
    qOptBeq a.minProperties b.minProperties = true ∧
    qOptBeq a.maxProperties b.maxProperties = true := by
  unfold schemaBeq at h
  have h1 : 1 ≤ ssize a := ssize_pos a
  obtain ⟨n1, hn⟩ : ∃ n1, ssize a = n1 + 1 := ⟨ssize a - 1, by omega⟩
  rw [hn] at h
  simp only [schemaBeqF, Bool.and_eq_true] at h
  exact ⟨h.1.1.1.1.2, h.1.1.1.2⟩

/-- `===` on two `type` fields: value equality for strings,
`undefined === undefined`, and reference inequality for two distinct
array-typed fields. -/
def typeJsEq : Option (String ⊕ List String) → Option (String ⊕ List String) → Bool
  | none, none => true
  | some (.inl x), some (.inl y) => x == y
  | _, _ => false

/-- String interpolation of a `type` field, as in the template literal
`"Type mismatch: ..."`. -/
def typeToString : Option (String ⊕ List String) → String
  | none => "undefined"
  | some (.inl t) => t
  | some (.inr ts) => String.intercalate "," ts

def jnum (o : Option ℚ) : Option JVal := o.map JVal.num

def jstr (o : Option String) : Option JVal := o.map JVal.str

def jlist (o : Option (List JVal)) : Option JVal := o.map JVal.arr

/-- `JSON.stringify(x) !== JSON.stringify(y)` negated, for attribute
values (`undefined` equals `undefined`). -/
def optJBeq : Option JVal → Option JVal → Bool := optBeq JVal.beq

mutual

/-- A non-null result of `diff`: either an `{error: ...}` object, a map of
per-property entries (possibly with `minProperties`/`maxProperties`
`{from,to}` rows), an `{items: ...}` wrapper, or a scalar attribute map. -/
inductive DiffR where
  | errS (msg : String)
  | errUnion (f t : Option (List Schema))
  | objMap (entries : List (String × DiffEntry))
  | items (d : DiffR)
  | itemsTup (entries : List (ℕ × DiffR))
  | attrMap (entries : List (String × Option JVal × Option JVal))

inductive DiffEntry where
  | addedInB
  | removedInB
  | nested (d : DiffR)
  | fromTo (f t : Option JVal)

end

/-- The scalar-leaf comparison: the fixed attribute list of the source, in
order, emitting a `{from, to}` row per mismatch. -/
def scalarEntries (a b : Schema) : List (String × Option JVal × Option JVal) :=
  (if optJBeq (jnum a.minimum) (jnum b.minimum) then []
   else [("minimum", (jnum a.minimum, jnum b.minimum))]) ++
  (if optJBeq (jnum a.maximum) (jnum b.maximum) then []
   else [("maximum", (jnum a.maximum, jnum b.maximum))]) ++
  (if optJBeq (jnum a.minLength) (jnum b.minLength) then []
   else [("minLength", (jnum a.minLength, jnum b.minLength))]) ++
  (if optJBeq (jstr a.pattern) (jstr b.pattern) then []
   else [("pattern", (jstr a.pattern, jstr b.pattern))]) ++
  (if optJBeq (jstr a.format) (jstr b.format) then []
   else [("format", (jstr a.format, jstr b.format))]) ++
  (if optJBeq (jlist a.enum) (jlist b.enum) then []
   else [("enum", (jlist a.enum, jlist b.enum))]) ++
  (if optJBeq (jstr a.title) (jstr b.title) then []
   else [("title", (jstr a.title, jstr b.title))]) ++
  (if optJBeq (jstr a.description) (jstr b.description) then []
   else [("description", (jstr a.description, jstr b.description))]) ++
  (if optJBeq a.default b.default then []
   else [("default", (a.default, b.default))])

def propNames : Option (List (String × Schema)) → List String
  | some ps => ps.map Prod.fst
  | none => []

/-- `x.properties?.[k]`. -/
def propLookup : Option (List (String × Schema)) → String → Option Schema
  | some ps, k => (ps.find? (fun kp => kp.1 == k)).map Prod.snd
  | none, _ => none

/-- `JSON.stringify(a.anyOf) !== JSON.stringify(b.anyOf)` negated. -/
def anyOfJsonEq : Option (List Schema) → Option (List Schema) → Bool
  | none, none => true
  | some l1, some l2 => listBeqWith schemaBeq l1 l2
  | _, _ => false

/-- Fuelled `diff`.  The two mixed `items` cases marked below are the ones
where the source would throw (`diff(node, undefined)` dereferences
`undefined.anyOf`); they are unreachable for well-formed array schemas and
modelled as "no difference". -/
def diffF : ℕ → Schema → Schema → Option DiffR
  | 0, _, _ => none
  | n + 1, a, b =>
    if schemaBeq a b then none
    else if a.anyOf.isSome || b.anyOf.isSome then
      (if anyOfJsonEq a.anyOf b.anyOf then none else some (.errUnion a.anyOf b.anyOf))
    else if typeJsEq a.type b.type = false then
      some (.errS ("Type mismatch: " ++ typeToString a.type ++ " vs " ++ typeToString b.type))
    else if a.type = some (.inl "object") then
      let ka := propNames a.properties
      let keys := ka ++ (propNames b.properties).filter (fun k => !(ka.contains k))
      let pEntries := keys.filterMap (fun k =>
        match propLookup a.properties k, propLookup b.properties k with
        | none, _ => some (k, DiffEntry.addedInB)
        | some _, none => some (k, DiffEntry.removedInB)
        | some pA, some pB => (diffF n pA pB).map (fun d => (k, DiffEntry.nested d)))
      let mEntries :=
        (if optJBeq (jnum a.minProperties) (jnum b.minProperties) then []
         else [("minProperties", DiffEntry.fromTo (jnum a.minProperties)
           (jnum b.minProperties))]) ++
        (if optJBeq (jnum a.maxProperties) (jnum b.maxProperties) then []
         else [("maxProperties", DiffEntry.fromTo (jnum a.maxProperties)
           (jnum b.maxProperties))])
      let entries := pEntries ++ mEntries
      if entries.isEmpty then none else some (.objMap entries)
    else if a.type = some (.inl "array") then
      match a.items, b.items with
      | some (.inr ta), some (.inr tb) =>
        if ta.length ≠ tb.length then some (.errS "Tuple length mismatch")
        else
          let entries := ((ta.zip tb).enum).filterMap
            (fun p => (diffF n p.2.1 p.2.2).map (fun d => (p.1, d)))
          if entries.isEmpty then none else some (.itemsTup entries)
      | some (.inl A1), some (.inl B1) => (diffF n A1 B1).map DiffR.items
      | none, none => none
      | some (.inl _), none => none
      | none, some (.inl _) => none
      | _, _ => some (.errS "Array type mismatch (Tuple vs List)")
    else
      if (scalarEntries a b).isEmpty then none else some (.attrMap (scalarEntries a b))

/-- `diff(a, b)`. -/
def diff (a b : Schema) : Option DiffR := diffF (ssize a) a b

theorem diffF_refl (n : ℕ) (X : Schema) : diffF (n + 1) X X = none := by
  simp only [diffF]
  rw [if_pos (schemaBeq_refl X)]

/-- C9: `diff(X, X)` is `null` for every schema node `X` — the
`JSON.stringify` short-circuit fires on identical nodes. -/
theorem claimC9_diff_reflexive (X : Schema) : diff X X = none := by
  unfold diff
  have h1 : 1 ≤ ssize X := ssize_pos X
  obtain ⟨n1, hn⟩ : ∃ n1, ssize X = n1 + 1 := ⟨ssize X - 1, by omega⟩
  rw [hn]
  exact diffF_refl n1 X

theorem optJBeq_jnum (x y : Option ℚ) : optJBeq (jnum x) (jnum y) = qOptBeq x y := by
  cases x <;> cases y <;> simp [optJBeq, jnum, optBeq, qOptBeq, JVal.beq]

theorem optJBeq_jstr (x y : Option String) : optJBeq (jstr x) (jstr y) = strOptBeq x y := by
  cases x <;> cases y <;> simp [optJBeq, jstr, optBeq, strOptBeq, JVal.beq]

theorem optJBeq_jlist (x y : Option (List JVal)) :
    optJBeq (jlist x) (jlist y) = optBeq JVal.beqList x y := by
  cases x <;> cases y <;> simp [optJBeq, jlist, optBeq, JVal.beq]

/-- A successful stringify check forces all nine scalar-leaf attributes to
agree, so the leaf comparison emits nothing. -/
theorem scalarEntries_nil_of_beq {a b : Schema} (h : schemaBeq a b = true) :
    scalarEntries a b = [] := by
  unfold schemaBeq at h
  have h1 : 1 ≤ ssize a := ssize_pos a
  obtain ⟨n1, hn⟩ : ∃ n1, ssize a = n1 + 1 := ⟨ssize a - 1, by omega⟩
  rw [hn] at h
  simp only [schemaBeqF, Bool.and_eq_true] at h
  obtain ⟨⟨⟨⟨⟨⟨⟨⟨⟨⟨⟨⟨⟨⟨⟨⟨⟨⟨⟨⟨h1x, h2⟩, h3⟩, h4⟩, h5⟩, h6⟩, h7⟩, h8⟩, h9⟩, h10⟩, h11⟩,
    h12⟩, h13⟩, h14⟩, h15⟩, h16⟩, h17⟩, h18⟩, h19⟩, h20⟩, h21⟩ := h
  unfold scalarEntries
  rw [if_pos (by rw [optJBeq_jnum]; exact h4), if_pos (by rw [optJBeq_jnum]; exact h5),
    if_pos (by rw [optJBeq_jnum]; exact h7), if_pos (by rw [optJBeq_jstr]; exact h9),
    if_pos (by rw [optJBeq_jstr]; exact h10), if_pos (by rw [optJBeq_jlist]; exact h3),
    if_pos (by rw [optJBeq_jstr]; exact h19), if_pos (by rw [optJBeq_jstr]; exact h20),
    if_pos (show optJBeq a.default b.default = true from h21)]
  rfl

/-- C10: the diff engine is blind to `maxLength`, `multipleOf`,
`minItems` and `maxItems`: two same-scalar-type nodes compare equal
unless one of the nine attributes `minimum, maximum, minLength, pattern,
format, enum, title, description, default` differs (an exact
characterisation), and two homogeneous array nodes with identical `items`
compare equal whatever else differs. -/
theorem claimC10_diff_blind_spots :
    (∀ (a b : Schema) (t : String),
      a.anyOf = none → b.anyOf = none → a.type = some (.inl t) → b.type = some (.inl t) →
      t ≠ "object" → t ≠ "array" →
      (diff a b = none ↔ scalarEntries a b = [])) ∧
    (∀ (a b A : Schema),
      a.anyOf = none → b.anyOf = none →
      a.type = some (.inl "array") → b.type = some (.inl "array") →
      a.items = some (.inl A) → b.items = some (.inl A) →
      diff a b = none) := by
  constructor
  · intro a b t ha hb hta htb hto hta2
    unfold diff
    have h1 : 1 ≤ ssize a := ssize_pos a
    obtain ⟨n1, hn⟩ : ∃ n1, ssize a = n1 + 1 := ⟨ssize a - 1, by omega⟩
    rw [hn]
    simp only [diffF]
    cases hbeq : schemaBeq a b with
    | true =>
      rw [if_pos rfl]
      simp [scalarEntries_nil_of_beq hbeq]
    | false =>
      rw [if_neg (by simp), ha, hb]
      rw [if_neg (by simp)]
      have htj : typeJsEq a.type b.type = true := by
        rw [hta, htb]
        simp [typeJsEq]
      rw [if_neg (by simp [htj])]
      rw [if_neg (by rw [hta]; simp [hto]), if_neg (by rw [hta]; simp [hta2])]
      cases hse : (scalarEntries a b).isEmpty with
      | true =>
        rw [if_pos rfl]
        simp only [List.isEmpty_iff] at hse
        simp [hse]
      | false =>
        rw [if_neg (by simp)]
        have : scalarEntries a b ≠ [] := by
          intro hnil
          rw [hnil] at hse
          cases hse
        simp [this]
  · intro a b A ha hb hta htb hia hib
    unfold diff
    have h1 : 1 ≤ ssize a := ssize_pos a
    obtain ⟨n1, hn⟩ : ∃ n1, ssize a = n1 + 1 := ⟨ssize a - 1, by omega⟩
    rw [hn]
    simp only [diffF]
    cases hbeq : schemaBeq a b with
    | true => rw [if_pos rfl]
    | false =>
      rw [if_neg (by simp), ha, hb]
      rw [if_neg (by simp)]
      have htj : typeJsEq a.type b.type = true := by
        rw [hta, htb]
        simp [typeJsEq]
      rw [if_neg (by simp [htj])]
      rw [if_neg (by rw [hta]; simp), if_pos hta]
      rw [hia, hib]
      dsimp only
      have hA1 : 1 ≤ ssize A := ssize_pos A
      have hAlt : ssize A < ssize a := ssize_items_single_lt hia
      obtain ⟨m, hm⟩ : ∃ m, n1 = m + 1 := ⟨n1 - 1, by omega⟩
      rw [hm, diffF_refl]
      rfl

/-- `{...s, maxProperties: m}`: replace only the `maxProperties` key. -/
def setMaxProperties : Schema → Option ℚ → Schema
  | .mk t a e mn mx mo mnl mxl p f mni mxi it pr rq ap mnp _ ti d df, m =>
    .mk t a e mn mx mo mnl mxl p f mni mxi it pr rq ap mnp m ti d df

theorem ssize_setMax (s : Schema) (m : Option ℚ) :
    ssize (setMaxProperties s m) = ssize s := by
  cases s
  dsimp only [setMaxProperties]
  conv_lhs => rw [ssize.eq_def]
  conv_rhs => rw [ssize.eq_def]

theorem walkF_setMax (n : ℕ) (O : Oracles) (fs : Bool) (v : JVal) (s : Schema)
    (m : Option ℚ) : walkF n O fs v (setMaxProperties s m) = walkF n O fs v s := by
  cases n with
  | zero => rfl
  | succ n =>
    cases s
    rfl

/-- `{type: "object", maxProperties: 1}`. -/
def sMaxProps1 : Schema :=
  .mk (some (.inl "object")) none none none none none none none none none none none none
    none none none none (some 1) none none none

/-- `{type: "object", minProperties: 2}`. -/
def sMinProps2 : Schema :=
  .mk (some (.inl "object")) none none none none none none none none none none none none
    none none none (some 2) none none none none

/-- `{type: "object"}` with no other keys. -/
def objPlain : Schema :=
  .mk (some (.inl "object")) none none none none none none none none none none none none
    none none none none none none none none

/-- A 100-key object value `{"0": 0, ..., "99": 99}`. -/
def kvs100 : List (String × JVal) :=
  (List.range 100).map (fun i => (toString i, JVal.num (i : ℚ)))

theorem exists_objMap_rowR (pE mn : List (String × DiffEntry)) (row : String × DiffEntry) :
    ∃ entries, (if (pE ++ (mn ++ [row])).isEmpty = true then (none : Option DiffR)
        else some (DiffR.objMap (pE ++ (mn ++ [row])))) = some (DiffR.objMap entries) ∧
      row ∈ entries := by
  have hmem : row ∈ pE ++ (mn ++ [row]) :=
    List.mem_append.mpr (Or.inr (List.mem_append.mpr (Or.inr (List.mem_singleton.mpr rfl))))
  have hone : ¬ (pE ++ (mn ++ [row])).isEmpty = true := by
    rw [List.isEmpty_iff]
    exact fun hc => (List.ne_nil_of_mem hmem) hc
  rw [if_neg hone]
  exact ⟨_, rfl, hmem⟩

theorem exists_objMap_rowL (pE mx : List (String × DiffEntry)) (row : String × DiffEntry) :
    ∃ entries, (if (pE ++ ([row] ++ mx)).isEmpty = true then (none : Option DiffR)
        else some (DiffR.objMap (pE ++ ([row] ++ mx)))) = some (DiffR.objMap entries) ∧
      row ∈ entries := by
  have hmem : row ∈ pE ++ ([row] ++ mx) :=
    List.mem_append.mpr (Or.inr (List.mem_append.mpr (Or.inl (List.mem_singleton.mpr rfl))))
  have hone : ¬ (pE ++ ([row] ++ mx)).isEmpty = true := by
    rw [List.isEmpty_iff]
    exact fun hc => (List.ne_nil_of_mem hmem) hc
  rw [if_neg hone]
  exact ⟨_, rfl, hmem⟩

theorem diff_obj_maxRow {a b : Schema}
    (ha : a.anyOf = none) (hb : b.anyOf = none)
    (hta : a.type = some (.inl "object")) (htb : b.type = some (.inl "object"))
    (hmax : qOptBeq a.maxProperties b.maxProperties = false) :
    ∃ entries, diff a b = some (DiffR.objMap entries) ∧
      ("maxProperties", DiffEntry.fromTo (jnum a.maxProperties) (jnum b.maxProperties))
        ∈ entries := by
  have hbeq : schemaBeq a b = false := by
    cases hb2 : schemaBeq a b with
    | true => rw [(schemaBeq_minmaxProps hb2).2] at hmax; cases hmax
    | false => rfl
  unfold diff
  have h1 : 1 ≤ ssize a := ssize_pos a
  obtain ⟨n1, hn⟩ : ∃ n1, ssize a = n1 + 1 := ⟨ssize a - 1, by omega⟩
  rw [hn]
  simp only [diffF]
  rw [if_neg (by simp [hbeq]), ha, hb]
  rw [if_neg (by simp)]
  have htj : typeJsEq a.type b.type = true := by rw [hta, htb]; simp [typeJsEq]
  rw [if_neg (by simp [htj]), if_pos hta]
  have hcond : optJBeq (jnum a.maxProperties) (jnum b.maxProperties) = false := by
    rw [optJBeq_jnum]; exact hmax
  rw [if_neg (show ¬ optJBeq (jnum a.maxProperties) (jnum b.maxProperties) = true by
    simp [hcond])]
  exact exists_objMap_rowR _ _ _

theorem diff_obj_minRow {a b : Schema}
    (ha : a.anyOf = none) (hb : b.anyOf = none)
    (hta : a.type = some (.inl "object")) (htb : b.type = some (.inl "object"))
    (hmin : qOptBeq a.minProperties b.minProperties = false) :
    ∃ entries, diff a b = some (DiffR.objMap entries) ∧
      ("minProperties", DiffEntry.fromTo (jnum a.minProperties) (jnum b.minProperties))
        ∈ entries := by
  have hbeq : schemaBeq a b = false := by
    cases hb2 : schemaBeq a b with
    | true => rw [(schemaBeq_minmaxProps hb2).1] at hmin; cases hmin
    | false => rfl
  unfold diff
  have h1 : 1 ≤ ssize a := ssize_pos a
  obtain ⟨n1, hn⟩ : ∃ n1, ssize a = n1 + 1 := ⟨ssize a - 1, by omega⟩
  rw [hn]
  simp only [diffF]
  rw [if_neg (by simp [hbeq]), ha, hb]
  rw [if_neg (by simp)]
  have htj : typeJsEq a.type b.type = true := by rw [hta, htb]; simp [typeJsEq]
  rw [if_neg (by simp [htj]), if_pos hta]
  have hcond : optJBeq (jnum a.minProperties) (jnum b.minProperties) = false := by
    rw [optJBeq_jnum]; exact hmin
  rw [if_neg (show ¬ optJBeq (jnum a.minProperties) (jnum b.minProperties) = true by
    simp [hcond])]
  exact exists_objMap_rowL _ _ _

/-- C4: `maxProperties` is a ghost constraint for the validation engine —
replacing it (with anything, including removal) never changes `validate`'s
result on any value, and a 100-key object validates true against
`maxProperties: 1` — while the diff engine compares `minProperties` and
`maxProperties` literally on object-typed nodes and emits a `{from, to}`
row on mismatch. -/
theorem claimC4_maxProperties_ghost :
    (∀ (O : Oracles) (v : JVal) (s : Schema) (fs : Bool) (m : Option ℚ),
      validate O v (setMaxProperties s m) fs = validate O v s fs) ∧
    validate oracleTrue (.obj kvs100) sMaxProps1 false = true ∧
    (∀ a b : Schema, a.anyOf = none → b.anyOf = none →
      a.type = some (.inl "object") → b.type = some (.inl "object") →
      qOptBeq a.maxProperties b.maxProperties = false →
      ∃ entries, diff a b = some (DiffR.objMap entries) ∧
        ("maxProperties", DiffEntry.fromTo (jnum a.maxProperties) (jnum b.maxProperties))
          ∈ entries) ∧
    (∀ a b : Schema, a.anyOf = none → b.anyOf = none →
      a.type = some (.inl "object") → b.type = some (.inl "object") →
      qOptBeq a.minProperties b.minProperties = false →
      ∃ entries, diff a b = some (DiffR.objMap entries) ∧
        ("minProperties", DiffEntry.fromTo (jnum a.minProperties) (jnum b.minProperties))
          ∈ entries) := by
  refine ⟨?_, ?_, ?_, ?_⟩
  · intro O v s fs m
    unfold validate
    rw [ssize_setMax, walkF_setMax]
  · decide
  · intro a b ha hb hta htb hmax
    exact diff_obj_maxRow ha hb hta htb hmax
  · intro a b ha hb hta htb hmin
    exact diff_obj_minRow ha hb hta htb hmin

theorem claimC4_witness :
    (validate oracleTrue (.num 3) (setMaxProperties emptySchema (some 1)) false
      = validate oracleTrue (.num 3) emptySchema false) ∧
    (∃ entries, diff sMaxProps1 objPlain = some (DiffR.objMap entries) ∧
      ("maxProperties", DiffEntry.fromTo (jnum sMaxProps1.maxProperties)
        (jnum objPlain.maxProperties)) ∈ entries) ∧
    (∃ entries, diff sMinProps2 objPlain = some (DiffR.objMap entries) ∧
      ("minProperties", DiffEntry.fromTo (jnum sMinProps2.minProperties)
        (jnum objPlain.minProperties)) ∈ entries) :=
  ⟨claimC4_maxProperties_ghost.1 oracleTrue (.num 3) emptySchema false (some 1),
   claimC4_maxProperties_ghost.2.2.1 sMaxProps1 objPlain rfl rfl rfl rfl rfl,
   claimC4_maxProperties_ghost.2.2.2 sMinProps2 objPlain rfl rfl rfl rfl rfl⟩

/-- `{type: "string", maxLength: q}` and nothing else. -/
def strMaxLen (q : ℚ) : Schema :=
  .mk (some (.inl "string")) none none none none none none (some q) none none none none
    none none none none none none none none none

/-- `{type: "array", minItems: q?, items: boolSchema}`. -/
def arrBoolMin (q : Option ℚ) : Schema :=
  .mk (some (.inl "array")) none none none none none none none none none q none
    (some (.inl boolSchema)) none none none none none none none none

theorem claimC10_witness :
    diff (strMaxLen 5) (strMaxLen 10) = none ∧
    diff (arrBoolMin (some 2)) (arrBoolMin none) = none :=
  ⟨(claimC10_diff_blind_spots.1 (strMaxLen 5) (strMaxLen 10) "string"
      rfl rfl rfl rfl (by decide) (by decide)).mpr rfl,
   claimC10_diff_blind_spots.2 (arrBoolMin (some 2)) (arrBoolMin none) boolSchema
      rfl rfl rfl rfl rfl rfl⟩
